import Mathlib

/-!
# Verification of the 3CB combat engine core

Shallow embedding of the combat-engine core of the 3CBlue "Three-Card Blind"
simulator: the card/ability data model (`card-types.ts`), the immutable game
state (`game-state.ts`), the combat damage resolver (`combat.ts`), the action
model (`game-actions.ts`), and the minimax search / matchup driver
(`game-tree.ts`).

Modelling conventions:
* JavaScript `Map` (insertion ordered, unique keys) is embedded as an
  association list `List (Nat × β)`; `Map.set` replaces the value at the
  first occurrence of the key in place, else appends.
* JavaScript `Set<string>` is a `List String` with membership-guarded append.
* JavaScript numbers holding integral quantities (power, toughness, life,
  damage) are `Int`; loop indices, permanent ids, depths are `Nat`.
* `PlayerId` (`0 | 1`) is `Fin 2`.
* `Number.NEGATIVE_INFINITY` / `POSITIVE_INFINITY` used as alpha/beta seeds
  are embedded as `-2` / `2`: every game value produced by the search lies in
  `[-1, 1]`, so `±2` are absorbing for `min`/`max` exactly as `±∞` are.
-/

namespace ThreeCB

/-- `EvergreenKeyword` from `card-types.ts`. -/
inductive EvergreenKeyword where
  | flying
  | first_strike
  | double_strike
  | trample
  | deathtouch
  | lifelink
  | reach
  | menace
  | defender
  | vigilance
  | indestructible
  | haste
  | hexproof
  | ward
  | flash
  | protection
deriving DecidableEq, Repr

/-- `CardType` from `card-types.ts`. -/
inductive CardType where
  | creature
  | instant
  | sorcery
  | enchantment
  | artifact
  | planeswalker
  | land
  | battle
deriving DecidableEq, Repr

/-- `Ability` tagged union from `card-types.ts`. -/
inductive Ability where
  | keyword (keyword : EvergreenKeyword) (qualifier : Option String) (cost : Option String)
  | staticPtModifier (power : Int) (toughness : Int) (target : String) (condition : Option String)
  | etbDamage (amount : Int) (target : String)
  | etbLifeGain (amount : Int)
  | etbCreateToken (count : Int) (power : Int) (toughness : Int) (keywords : List EvergreenKeyword)
  | activatedTapDamage (amount : Int) (target : String)
  | activatedTapLifeGain (amount : Int)
  | unresolved (oracleText : String) (reason : String)
deriving DecidableEq, Repr

/-- `Card` from `card-types.ts` (image URI omitted; display-only). -/
structure Card where
  name : String
  manaCost : String
  cmc : Int
  colors : List String
  types : List CardType
  supertypes : List String
  subtypes : List String
  oracleText : String
  power : Option Int
  toughness : Option Int
  loyalty : Option Int
  abilities : List Ability
  scryfallId : String
deriving DecidableEq, Repr

/-- `hasUnresolvedAbilities` from `card-types.ts`:
`card.abilities.some((a) => a.kind === "unresolved")`. -/
def hasUnresolvedAbilities (card : Card) : Bool :=
  card.abilities.any fun a =>
    match a with
    | .unresolved _ _ => true
    | _ => false

/-- `getKeywords` from `card-types.ts`: filter to keyword abilities, project
the keyword (filter-then-map is `filterMap`). -/
def getKeywords (card : Card) : List EvergreenKeyword :=
  card.abilities.filterMap fun a =>
    match a with
    | .keyword kw _ _ => some kw
    | _ => none

/-- `isCreature` from `card-types.ts`. -/
def isCreature (card : Card) : Bool :=
  card.types.contains CardType.creature

/-- `PlayerId = 0 | 1` from `game-state.ts`. -/
abbrev PlayerId := Fin 2

/-- `Permanent` from `game-state.ts`. -/
structure Permanent where
  card : Card
  tapped : Bool
  summoningSick : Bool
  damageMarked : Int
  isToken : Bool
  id : Nat
deriving DecidableEq, Repr

/-- `PlayerState` from `game-state.ts`. -/
structure PlayerState where
  life : Int
  hand : List Card
  battlefield : List Permanent
  graveyard : List Card
deriving DecidableEq, Repr

/-- `Phase` from `game-state.ts`. -/
inductive Phase where
  | main_precombat
  | declare_attackers
  | declare_blockers
  | first_strike_damage
  | combat_damage
  | main_postcombat
  | cleanup
deriving DecidableEq, Repr

/-- JS `Map` keyed by permanent id, as an insertion-ordered association list. -/
abbrev IdMap (β : Type) := List (Nat × β)

/-- JS `Map.get`: value at the first matching key. -/
def mapGet {β : Type} : IdMap β → Nat → Option β
  | [], _ => none
  | kv :: rest, k => if kv.1 = k then some kv.2 else mapGet rest k

/-- JS `Map.set`: replace the value at an existing key in place, else append. -/
def mapSet {β : Type} : IdMap β → Nat → β → IdMap β
  | [], k, v => [(k, v)]
  | kv :: rest, k, v =>
      if kv.1 = k then (k, v) :: rest else kv :: mapSet rest k v

/-- JS `Set<string>.has`. -/
def setHas (s : List String) (x : String) : Bool :=
  s.contains x

/-- JS `new Set(old).add(x)`: the history with `x` folded in. -/
def setAdd (s : List String) (x : String) : List String :=
  if s.contains x then s else s ++ [x]

/-- `CombatState` from `game-state.ts`. -/
structure CombatState where
  attackers : List Nat
  blockers : IdMap (List Nat)
deriving DecidableEq, Repr

/-- `GameState` from `game-state.ts`; the two-element players tuple is a pair. -/
structure GameState where
  activePlayer : PlayerId
  players : PlayerState × PlayerState
  turn : Nat
  phase : Phase
  combat : Option CombatState
  stateHistory : List String
  nextPermanentId : Nat
deriving DecidableEq, Repr

/-- Index the players pair by `PlayerId` (JS `state.players[p]`). -/
def playersGet (ps : PlayerState × PlayerState) (p : PlayerId) : PlayerState :=
  if p = 0 then ps.1 else ps.2

/-- Replace one component of the players pair (JS tuple update). -/
def playersSet (ps : PlayerState × PlayerState) (p : PlayerId) (v : PlayerState) :
    PlayerState × PlayerState :=
  if p = 0 then (v, ps.2) else (ps.1, v)

/-- `createInitialState` from `game-state.ts`. -/
def createInitialState (deck0 deck1 : List Card) : GameState where
  activePlayer := 0
  players :=
    ({ life := 20, hand := deck0, battlefield := [], graveyard := [] },
     { life := 20, hand := deck1, battlefield := [], graveyard := [] })
  turn := 1
  phase := .main_precombat
  combat := none
  stateHistory := []
  nextPermanentId := 0

/-- `opponent` from `game-state.ts`: `player === 0 ? 1 : 0`. -/
def opponent (player : PlayerId) : PlayerId :=
  if player = 0 then 1 else 0

/-- `getPlayer` from `game-state.ts`. -/
def getPlayerState (state : GameState) (player : PlayerId) : PlayerState :=
  playersGet state.players player

/-- `getActivePlayer` from `game-state.ts`. -/
def getActivePlayerState (state : GameState) : PlayerState :=
  playersGet state.players state.activePlayer

/-- `getDefendingPlayer` from `game-state.ts`. -/
def getDefendingPlayerState (state : GameState) : PlayerState :=
  playersGet state.players (opponent state.activePlayer)

/-- `createPermanent` from `game-state.ts` (default `summoningSick = true`). -/
def createPermanent (card : Card) (id : Nat) (summoningSick : Bool := true) : Permanent where
  card := card
  tapped := false
  summoningSick := summoningSick
  damageMarked := 0
  isToken := false
  id := id

/-- `hasKeyword` from `game-state.ts`. -/
def hasKeyword (perm : Permanent) (keyword : EvergreenKeyword) : Bool :=
  (getKeywords perm.card).contains keyword

/-- `canAttack` from `game-state.ts`, translated exactly: the guard on
summoning sickness is `sick && !haste && !vigilance`, so a creature with
vigilance skips the sickness check (the inner `if (!haste) return false` is
unreachable without it). -/
def canAttack (perm : Permanent) : Bool :=
  if perm.tapped then false
  else if hasKeyword perm .defender then false
  else if perm.summoningSick && !hasKeyword perm .haste && !hasKeyword perm .vigilance then
    if !hasKeyword perm .haste then false
    else perm.card.types.contains CardType.creature
  else perm.card.types.contains CardType.creature

/-- `canBlock` from `game-state.ts`. -/
def canBlock (blocker attacker : Permanent) : Bool :=
  if blocker.tapped then false
  else if !blocker.card.types.contains CardType.creature then false
  else if hasKeyword attacker .flying then
    if !hasKeyword blocker .flying && !hasKeyword blocker .reach then false else true
  else true

/-- `getEffectivePower` from `game-state.ts`: `perm.card.power ?? 0`. -/
def getEffectivePower (perm : Permanent) : Int :=
  perm.card.power.getD 0

/-- `getEffectiveToughness` from `game-state.ts`: `perm.card.toughness ?? 0`. -/
def getEffectiveToughness (perm : Permanent) : Int :=
  perm.card.toughness.getD 0

/-- `isLethalDamage` from `game-state.ts`. -/
def isLethalDamage (perm : Permanent) (damageAmount : Int) (fromDeathtouch : Bool) : Bool :=
  if hasKeyword perm .indestructible then false
  else if fromDeathtouch && damageAmount > 0 then true
  else damageAmount ≥ getEffectiveToughness perm

/-- Insert a string into a lexicographically sorted list. -/
def insertSorted (x : String) : List String → List String
  | [] => [x]
  | y :: ys => if x ≤ y then x :: y :: ys else y :: insertSorted x ys

/-- JS `Array<string>.sort()`: lexicographic sort (insertion sort; ties are
identical strings, so stability is irrelevant). -/
def sortStrings : List String → List String
  | [] => []
  | x :: xs => insertSorted x (sortStrings xs)

/-- The wire name of each phase, as the string literals of `game-state.ts`. -/
def phaseString : Phase → String
  | .main_precombat => "main_precombat"
  | .declare_attackers => "declare_attackers"
  | .declare_blockers => "declare_blockers"
  | .first_strike_damage => "first_strike_damage"
  | .combat_damage => "combat_damage"
  | .main_postcombat => "main_postcombat"
  | .cleanup => "cleanup"

/-- One battlefield entry of the hash: `` `${name}:${T|U}:${S|R}` ``. -/
def permHashPart (perm : Permanent) : String :=
  perm.card.name ++ ":" ++ (if perm.tapped then "T" else "U") ++ ":"
    ++ (if perm.summoningSick then "S" else "R")

/-- The per-player hash parts `l{i}:…`, `b{i}:…`, `h{i}:…` of `hashState`. -/
def playerHashParts (i : Nat) (p : PlayerState) : List String :=
  [ "l" ++ toString i ++ ":" ++ toString p.life,
    "b" ++ toString i ++ ":" ++ String.intercalate "," (sortStrings (p.battlefield.map permHashPart)),
    "h" ++ toString i ++ ":" ++ String.intercalate "," (sortStrings (p.hand.map fun c => c.name)) ]

/-- `hashState` from `game-state.ts`: canonical string for stalemate and
transposition keys. -/
def hashState (state : GameState) : String :=
  String.intercalate "|"
    (["t:" ++ toString state.activePlayer.val, "p:" ++ phaseString state.phase]
      ++ playerHashParts 0 state.players.1 ++ playerHashParts 1 state.players.2)

/-! ## Combat resolver (`combat.ts`) -/

/-- One entry of the per-step damage accumulator
`Map<number, { total, fromDeathtouch }>`. -/
structure DamageEntry where
  total : Int
  fromDeathtouch : Bool
deriving DecidableEq, Repr

/-- `addDamage` from `combat.ts`: merge into the existing entry (in place),
else append a fresh entry. -/
def addDamage : IdMap DamageEntry → Nat → Int → Bool → IdMap DamageEntry
  | [], targetId, amount, fromDeathtouch => [(targetId, ⟨amount, fromDeathtouch⟩)]
  | kv :: rest, targetId, amount, fromDeathtouch =>
      if kv.1 = targetId then
        (targetId, ⟨kv.2.total + amount, kv.2.fromDeathtouch || fromDeathtouch⟩) :: rest
      else kv :: addDamage rest targetId amount fromDeathtouch

/-- `CombatResult` from `combat.ts`; `lifeDelta` is the per-player pair. -/
structure CombatResult where
  destroyed : List Nat
  lifeDelta : Int × Int
deriving DecidableEq, Repr

/-- Read one component of a life-delta pair by player index. -/
def deltaGet (d : Int × Int) (p : PlayerId) : Int :=
  if p = 0 then d.1 else d.2

/-- Add to one component of a life-delta pair (JS `lifeDelta[p] += x`). -/
def deltaAdd (d : Int × Int) (p : PlayerId) (x : Int) : Int × Int :=
  if p = 0 then (d.1 + x, d.2) else (d.1, d.2 + x)

/-- `canBlockAttacker` from `combat.ts`. -/
def canBlockAttacker (blocker attacker : Permanent) : Bool :=
  if blocker.tapped then false
  else if !blocker.card.types.contains CardType.creature then false
  else if hasKeyword attacker .flying then
    if !hasKeyword blocker .flying && !hasKeyword blocker .reach then false else true
  else true

/-- Whether a creature's keywords let it deal damage in the given step:
the complement of the two `continue` guards in `resolveCombatDamage`
(first-strike step needs `first_strike` or `double_strike`; the regular step
excludes plain first-strikers). -/
def strikesInStep (perm : Permanent) (isFirstStrike : Bool) : Bool :=
  if isFirstStrike then
    hasKeyword perm .first_strike || hasKeyword perm .double_strike
  else
    !hasKeyword perm .first_strike || hasKeyword perm .double_strike

/-- Running accumulator of `resolveCombatDamage`: the damage map together
with the mutable `lifeDelta` array. -/
structure StepAcc where
  damageMap : IdMap DamageEntry
  lifeDelta : Int × Int
deriving DecidableEq, Repr

/-- The first pass of the blocked branch: assign up to lethal damage to each
blocker in declared order (`for (const blocker of blockers)` with an early
exit once no damage remains). Returns the updated map and the remaining
damage. -/
def assignLethalLoop (attackerDeathtouch : Bool) :
    IdMap DamageEntry → Int → List Permanent → IdMap DamageEntry × Int
  | map, remainingDamage, [] => (map, remainingDamage)
  | map, remainingDamage, blocker :: rest =>
      if remainingDamage ≤ 0 then (map, remainingDamage)
      else
        let lethalAmount : Int :=
          if attackerDeathtouch then 1
          else max 0 (getEffectiveToughness blocker -
            ((mapGet map blocker.id).map DamageEntry.total |>.getD 0))
        let assigned := min remainingDamage lethalAmount
        assignLethalLoop attackerDeathtouch
          (addDamage map blocker.id assigned attackerDeathtouch)
          (remainingDamage - assigned) rest

/-- Total damage the accumulator currently holds against a permanent id
(`damageToPermament.get(id)?.total ?? 0`). -/
def damageTotalAt (m : IdMap DamageEntry) (id : Nat) : Int :=
  ((mapGet m id).map DamageEntry.total).getD 0

/-- Claim-side transcription, written from the words of claim C1 (not from
the source) for the refinement proof: walking the blocker list in declared
order with `remaining` damage, each blocker receives `min(remaining,
lethal)` where `lethal` is 1 if the attacker has deathtouch and otherwise
the blocker's toughness minus the damage already accumulated on it (floored
at 0); `accumulated` gives that prior damage per blocker. Returns the
per-blocker amounts in declared order together with the remaining damage. -/
def claimLethalAmounts (dt : Bool) (accumulated : Permanent → Int) :
    Int → List Permanent → List Int × Int
  | remaining, [] => ([], remaining)
  | remaining, b :: rest =>
      let lethal : Int := if dt then 1 else max 0 (getEffectiveToughness b - accumulated b)
      let assigned := min remaining lethal
      let next := claimLethalAmounts dt accumulated (remaining - assigned) rest
      (assigned :: next.1, next.2)

/-- The blocked branch of the attacker loop of `resolveCombatDamage`: the
ordered lethal pass, excess routing (`remainingDamage > 0`: trample sends it
to the defender, otherwise it lands on the last blocker), and the final
lifelink credit of `power - remainingDamage`. `afterExcess` packs
`(map, lifeDelta, remainingDamage)` after the excess step. -/
def attackerBlockedBranch (activePlayer : PlayerId) (attacker : Permanent)
    (blockers : List Permanent) (acc : StepAcc) : StepAcc :=
  let defendingPlayer := opponent activePlayer
  let power := getEffectivePower attacker
  let attackerDeathtouch := hasKeyword attacker .deathtouch
  let attackerLifelink := hasKeyword attacker .lifelink
  let firstPass := assignLethalLoop attackerDeathtouch acc.damageMap power blockers
  let afterExcess : IdMap DamageEntry × (Int × Int) × Int :=
    if firstPass.2 > 0 then
      if hasKeyword attacker .trample then
        let d1 := deltaAdd acc.lifeDelta defendingPlayer (-firstPass.2)
        let d2 := if attackerLifelink then deltaAdd d1 activePlayer firstPass.2 else d1
        (firstPass.1, d2, 0)
      else
        match blockers.getLast? with
        | some lastBlocker =>
            (addDamage firstPass.1 lastBlocker.id firstPass.2 attackerDeathtouch,
              acc.lifeDelta, 0)
        | none => (firstPass.1, acc.lifeDelta, firstPass.2)
    else (firstPass.1, acc.lifeDelta, firstPass.2)
  let delta3 :=
    if attackerLifelink then deltaAdd afterExcess.2.1 activePlayer (power - afterExcess.2.2)
    else afterExcess.2.1
  { damageMap := afterExcess.1, lifeDelta := delta3 }

/-- The body of the attacker loop of `resolveCombatDamage` for one attacker:
skip guards, the unblocked branch, and the blocked branch. -/
def processAttacker (blockerMap : IdMap (List Permanent)) (activePlayer : PlayerId)
    (isFirstStrike : Bool) (acc : StepAcc) (attacker : Permanent) : StepAcc :=
  let defendingPlayer := opponent activePlayer
  let power := getEffectivePower attacker
  if power ≤ 0 then acc
  else if !strikesInStep attacker isFirstStrike then acc
  else
    let attackerLifelink := hasKeyword attacker .lifelink
    let blockers := (mapGet blockerMap attacker.id).getD []
    match blockers with
    | [] =>
        let d1 := deltaAdd acc.lifeDelta defendingPlayer (-power)
        let d2 := if attackerLifelink then deltaAdd d1 activePlayer power else d1
        { acc with lifeDelta := d2 }
    | b :: bs => attackerBlockedBranch activePlayer attacker (b :: bs) acc

/-- The body of the blocker loop of `resolveCombatDamage` for one blocker of
a found attacker: skip guards, damage to the attacker, blocker lifelink. -/
def processBlocker (activePlayer : PlayerId) (isFirstStrike : Bool)
    (attacker : Permanent) (acc : StepAcc) (blocker : Permanent) : StepAcc :=
  let blockerPower := getEffectivePower blocker
  if blockerPower ≤ 0 then acc
  else if !strikesInStep blocker isFirstStrike then acc
  else
    let blockerDeathtouch := hasKeyword blocker .deathtouch
    let map1 := addDamage acc.damageMap attacker.id blockerPower blockerDeathtouch
    let delta1 :=
      if hasKeyword blocker .lifelink then
        deltaAdd acc.lifeDelta (opponent activePlayer) blockerPower
      else acc.lifeDelta
    { damageMap := map1, lifeDelta := delta1 }

/-- Both damage passes of `resolveCombatDamage`: the attacker loop then the
blocker loop, threading the accumulator. -/
def combatDamageAcc (attackers : List Permanent) (blockerMap : IdMap (List Permanent))
    (activePlayer : PlayerId) (isFirstStrike : Bool) : StepAcc :=
  let acc1 := attackers.foldl (processAttacker blockerMap activePlayer isFirstStrike)
    { damageMap := [], lifeDelta := (0, 0) }
  blockerMap.foldl
    (fun acc entry =>
      match attackers.find? fun a => a.id = entry.1 with
      | none => acc
      | some attacker => entry.2.foldl (processBlocker activePlayer isFirstStrike attacker) acc)
    acc1

/-- All combat participants in the order the destruction check visits them:
`[...attackers, ...[...blockerMap.values()].flat()]`. -/
def combatParticipants (attackers : List Permanent)
    (blockerMap : IdMap (List Permanent)) : List Permanent :=
  attackers ++ (blockerMap.map fun entry => entry.2).flatten

/-- `resolveCombatDamage` from `combat.ts`. -/
def resolveCombatDamage (attackers : List Permanent) (blockerMap : IdMap (List Permanent))
    (activePlayer : PlayerId) (isFirstStrike : Bool) : CombatResult :=
  let acc := combatDamageAcc attackers blockerMap activePlayer isFirstStrike
  let destroyed := (combatParticipants attackers blockerMap).filterMap fun perm =>
    match mapGet acc.damageMap perm.id with
    | some dmg =>
        if isLethalDamage perm dmg.total dmg.fromDeathtouch then some perm.id else none
    | none => none
  { destroyed := destroyed, lifeDelta := acc.lifeDelta }

/-- `hasFirstStrikers` from `combat.ts`. -/
def hasFirstStrikers (attackers : List Permanent)
    (blockerMap : IdMap (List Permanent)) : Bool :=
  let allBlockers := (blockerMap.map fun entry => entry.2).flatten
  (attackers.any fun a => hasKeyword a .first_strike || hasKeyword a .double_strike) ||
    (allBlockers.any fun b => hasKeyword b .first_strike || hasKeyword b .double_strike)

/-- `generateAssignments` from `combat.ts`: depth-first product of each
blocker's choices (don't block first, then each legal attacker in order),
emitting completed assignments in DFS order. The functional reading needs no
undo step. -/
def generateAssignments :
    List (Permanent × List Nat) → IdMap (List Nat) → List (IdMap (List Nat))
  | [], current => [current]
  | (blocker, canBlockIds) :: rest, current =>
      generateAssignments rest current ++
        canBlockIds.flatMap fun attackerId =>
          let existing := (mapGet current attackerId).getD []
          generateAssignments rest (mapSet current attackerId (existing ++ [blocker.id]))

/-- `enumerateBlockAssignments` from `combat.ts`: per-blocker legal targets,
the cartesian generation, then the menace post-filter (`blocked by exactly
one` is rejected). -/
def enumerateBlockAssignments (attackers potentialBlockers : List Permanent) :
    List (IdMap (List Nat)) :=
  if attackers.isEmpty then [[]]
  else
    let blockerOptions := potentialBlockers.map fun blocker =>
      (blocker, (attackers.filter fun a => canBlockAttacker blocker a).map fun a => a.id)
    let assignments := generateAssignments blockerOptions []
    assignments.filter fun assignment =>
      attackers.all fun attacker =>
        if hasKeyword attacker .menace then
          ((mapGet assignment attacker.id).getD []).length ≠ 1
        else true

/-! ## Action model (`game-actions.ts`) -/

/-- `Action` tagged union from `game-actions.ts`. -/
inductive Action where
  | cast (cardIndices : List Nat)
  | declareAttackers (attackerIds : List Nat)
  | declareBlockers (assignment : IdMap (List Nat))
  | pass
deriving DecidableEq, Repr

/-- `generateSubsets` from `game-actions.ts`: all bitmask-selected subsets of
`ids`, masks ascending, bit positions ascending (mask `0` yields `[]`). -/
def generateSubsets (ids : List Nat) : List (List Nat) :=
  (List.range (2 ^ ids.length)).map fun mask =>
    (List.range ids.length).filterMap fun i =>
      if mask.testBit i then ids[i]? else none

/-- `enumerateMainPhaseActions` from `game-actions.ts`: one batch `Cast` per
subset of hand indices. -/
def enumerateMainPhaseActions (state : GameState) : List Action :=
  let player := getActivePlayerState state
  let indices := (List.range player.hand.length)
  (generateSubsets indices).map fun cardIndices => Action.cast cardIndices

/-- `enumerateAttackerActions` from `game-actions.ts`. -/
def enumerateAttackerActions (state : GameState) : List Action :=
  let player := getActivePlayerState state
  let eligible := player.battlefield.filter canAttack
  (generateSubsets (eligible.map fun p => p.id)).map fun ids => Action.declareAttackers ids

/-- `enumerateBlockerActions` from `game-actions.ts`. -/
def enumerateBlockerActions (state : GameState) : List Action :=
  match state.combat with
  | none => [Action.pass]
  | some combat =>
      let defender := getDefendingPlayerState state
      let activePlayer := getActivePlayerState state
      let attackerPerms := combat.attackers.filterMap fun id =>
        activePlayer.battlefield.find? fun p => p.id = id
      let potentialBlockers := defender.battlefield.filter fun p =>
        p.card.types.contains CardType.creature && !p.tapped
      (enumerateBlockAssignments attackerPerms potentialBlockers).map fun assignment =>
        Action.declareBlockers assignment

/-- `enumerateLegalActions` from `game-actions.ts`. -/
def enumerateLegalActions (state : GameState) : List Action :=
  match state.phase with
  | .main_precombat | .main_postcombat => enumerateMainPhaseActions state
  | .declare_attackers => enumerateAttackerActions state
  | .declare_blockers => enumerateBlockerActions state
  | .first_strike_damage | .combat_damage | .cleanup => [Action.pass]

/-- `updatePlayer` from `game-actions.ts`. -/
def updatePlayer (state : GameState) (player : PlayerId) (playerState : PlayerState) :
    GameState :=
  { state with players := playersSet state.players player playerState }

/-- `applyCast` from `game-actions.ts`: indexed walk over the hand splitting
kept cards from newly created permanents, then advance to
`declare_attackers`. -/
def applyCast (state : GameState) (cardIndices : List Nat) : GameState :=
  let player := getActivePlayerState state
  let step := player.hand.enum.foldl
    (fun (acc : List Card × List Permanent × Nat) (entry : Nat × Card) =>
      let (newHand, newPerms, nextId) := acc
      if cardIndices.contains entry.1 then
        (newHand, newPerms ++ [createPermanent entry.2 nextId], nextId + 1)
      else (newHand ++ [entry.2], newPerms, nextId))
    ([], [], state.nextPermanentId)
  let newBattlefield := player.battlefield ++ step.2.1
  updatePlayer
    { state with nextPermanentId := step.2.2, phase := .declare_attackers }
    state.activePlayer
    { player with hand := step.1, battlefield := newBattlefield }

/-- `advanceTurn` from `game-actions.ts`: toggle the active player, bump the
turn on wraparound, untap and un-sick the incoming player's board, clear all
marked damage, reset to `main_precombat` with no combat; `stateHistory` is
carried forward unchanged. -/
def advanceTurn (state : GameState) : GameState :=
  let nextPlayer := opponent state.activePlayer
  let nextTurn := if nextPlayer = 0 then state.turn + 1 else state.turn
  let nextPlayerState := playersGet state.players nextPlayer
  let untapped : PlayerState :=
    { nextPlayerState with
      battlefield := nextPlayerState.battlefield.map fun p =>
        { p with tapped := false, summoningSick := false, damageMarked := 0 } }
  let players1 := playersSet state.players nextPlayer untapped
  let otherPlayer := opponent nextPlayer
  let otherState := playersGet players1 otherPlayer
  let players2 := playersSet players1 otherPlayer
    { otherState with
      battlefield := otherState.battlefield.map fun p => { p with damageMarked := 0 } }
  { state with
    activePlayer := nextPlayer
    players := players2
    turn := nextTurn
    phase := .main_precombat
    combat := none
    stateHistory := state.stateHistory }

/-- `applyDeclareAttackers` from `game-actions.ts`: tap non-vigilant
attackers; with no attackers skip combat and advance the turn, otherwise
store the combat state and move to `declare_blockers`. -/
def applyDeclareAttackers (state : GameState) (attackerIds : List Nat) : GameState :=
  let player := getActivePlayerState state
  let newBattlefield := player.battlefield.map fun perm =>
    if attackerIds.contains perm.id then
      if hasKeyword perm .vigilance then perm else { perm with tapped := true }
    else perm
  let combat : CombatState := { attackers := attackerIds, blockers := [] }
  if attackerIds.isEmpty then
    let noAttackState := updatePlayer { state with combat := none } state.activePlayer
      { player with battlefield := newBattlefield }
    advanceTurn noAttackState
  else
    updatePlayer { state with phase := .declare_blockers, combat := some combat }
      state.activePlayer { player with battlefield := newBattlefield }

/-- `buildBlockerPermMap` from `game-actions.ts`. -/
def buildBlockerPermMap (blockerIds : IdMap (List Nat)) (defender : PlayerState) :
    IdMap (List Permanent) :=
  blockerIds.map fun entry =>
    (entry.1, entry.2.filterMap fun id => defender.battlefield.find? fun p => p.id = id)

/-- `applyDeclareBlockers` from `game-actions.ts`. -/
def applyDeclareBlockers (state : GameState) (assignment : IdMap (List Nat)) : GameState :=
  match state.combat with
  | none => state
  | some combat0 =>
      let combat : CombatState := { combat0 with blockers := assignment }
      let activePlayer := getActivePlayerState state
      let attackerPerms := combat.attackers.filterMap fun id =>
        activePlayer.battlefield.find? fun p => p.id = id
      let defender := getDefendingPlayerState state
      let blockerMap := buildBlockerPermMap combat.blockers defender
      let needsFirstStrike := hasFirstStrikers attackerPerms blockerMap
      { state with
        phase := if needsFirstStrike then .first_strike_damage else .combat_damage
        combat := some combat }

/-- `resolveCombatStep` from `game-actions.ts`: run the resolver, apply the
life deltas, and route destroyed permanents to their graveyards. -/
def resolveCombatStep (state : GameState) (isFirstStrike : Bool) : GameState :=
  match state.combat with
  | none => state
  | some combat =>
      let activePlayerState := getActivePlayerState state
      let defenderState := getDefendingPlayerState state
      let attackerPerms := combat.attackers.filterMap fun id =>
        activePlayerState.battlefield.find? fun p => p.id = id
      let blockerMap := buildBlockerPermMap combat.blockers defenderState
      let result := resolveCombatDamage attackerPerms blockerMap state.activePlayer isFirstStrike
      let applyTo : PlayerState → Int → PlayerState := fun p d => { p with life := p.life + d }
      let newPlayers0 :=
        (applyTo state.players.1 result.lifeDelta.1, applyTo state.players.2 result.lifeDelta.2)
      let bury : PlayerState → PlayerState := fun player =>
        let destroyed := player.battlefield.filter fun p => result.destroyed.contains p.id
        let surviving := player.battlefield.filter fun p => !result.destroyed.contains p.id
        { player with
          battlefield := surviving
          graveyard := player.graveyard ++ destroyed.map fun p => p.card }
      { state with players := (bury newPlayers0.1, bury newPlayers0.2) }

/-- `applyPass` from `game-actions.ts`. After `combat_damage` the turn
advances directly — `main_postcombat` and `cleanup` are not interposed, and
passing in either of those also advances the turn. -/
def applyPass (state : GameState) : GameState :=
  match state.phase with
  | .main_precombat => { state with phase := .declare_attackers }
  | .first_strike_damage =>
      { resolveCombatStep state true with phase := .combat_damage }
  | .combat_damage =>
      advanceTurn { resolveCombatStep state false with combat := none }
  | .declare_blockers => state
  | .main_postcombat => advanceTurn state
  | .cleanup => advanceTurn state
  | _ => state

/-- `applyAction` from `game-actions.ts`. -/
def applyAction (state : GameState) (action : Action) : GameState :=
  match action with
  | .cast cardIndices => applyCast state cardIndices
  | .declareAttackers attackerIds => applyDeclareAttackers state attackerIds
  | .declareBlockers assignment => applyDeclareBlockers state assignment
  | .pass => applyPass state

/-- `GameResult` from `game-actions.ts` (`null` becomes `Option`). -/
inductive GameResult where
  | win (winner : PlayerId)
  | draw
deriving DecidableEq, Repr

/-- `checkGameOver` from `game-actions.ts`: life totals only. -/
def checkGameOver (state : GameState) : Option GameResult :=
  let p0Dead := state.players.1.life ≤ 0
  let p1Dead := state.players.2.life ≤ 0
  if p0Dead && p1Dead then some .draw
  else if p0Dead then some (.win 1)
  else if p1Dead then some (.win 0)
  else none

/-- Result of `checkAndRecordStalemate` from `game-actions.ts`. -/
inductive StalemateCheck where
  | stalemate
  | noStalemate (state : GameState)
deriving DecidableEq, Repr

/-- `checkAndRecordStalemate` from `game-actions.ts`: repeat hash ⇒
stalemate; otherwise return the state with the hash folded into a cloned
history. -/
def checkAndRecordStalemate (state : GameState) : StalemateCheck :=
  let hash := hashState state
  if setHas state.stateHistory hash then .stalemate
  else .noStalemate { state with stateHistory := setAdd state.stateHistory hash }

/-! ## Minimax search and matchup driver (`game-tree.ts`) -/

/-- `MatchupResult` from `game-tree.ts`. -/
inductive MatchupResult where
  | player0Wins
  | player1Wins
  | draw
  | unresolved (reason : String) (partialState : GameState)
deriving DecidableEq, Repr

/-- `SearchStats` from `game-tree.ts`. -/
structure SearchStats where
  nodesExplored : Nat
  maxDepthReached : Nat
  terminatedByDepthLimit : Bool
deriving DecidableEq, Repr

/-- The transposition table `Map<string, number>`, insertion ordered. -/
abbrev TT := List (String × Int)

/-- `Map.get` on the transposition table. -/
def ttGet : TT → String → Option Int
  | [], _ => none
  | kv :: rest, k => if kv.1 = k then some kv.2 else ttGet rest k

/-- `Map.set` on the transposition table. -/
def ttSet : TT → String → Int → TT
  | [], k, v => [(k, v)]
  | kv :: rest, k, v => if kv.1 = k then (k, v) :: rest else kv :: ttSet rest k v

/-- Stand-in for `Number.NEGATIVE_INFINITY`: every game value lies in
`[-1, 1]`, so `-2` is absorbing for `max` exactly as `-∞`. -/
def NEG_INF : Int := -2

/-- Stand-in for `Number.POSITIVE_INFINITY` (see `NEG_INF`). -/
def POS_INF : Int := 2

/-- The two statistics updates at the head of `minimax`:
`stats.nodesExplored++` and `maxDepthReached = max(maxDepthReached, depth)`. -/
def bumpStats (stats : SearchStats) (depth : Nat) : SearchStats :=
  { stats with
    nodesExplored := stats.nodesExplored + 1
    maxDepthReached := max stats.maxDepthReached depth }

/-- The child loop of `minimax`: evaluate children in enumeration order,
update value and α (maximizer) or β (minimizer) after each child, and break
on `β ≤ α`. `recur` is the recursive call at `depth + 1`. -/
def searchLoop (recur : GameState → Int → Int → SearchStats → TT → Int × SearchStats × TT)
    (effectiveState : GameState) (isMaximizing : Bool) :
    List Action → Int → Int → Int → SearchStats → TT → Int × SearchStats × TT
  | [], value, _, _, stats, tt => (value, stats, tt)
  | action :: rest, value, alpha, beta, stats, tt =>
      let nextState := applyAction effectiveState action
      let (childValue, stats1, tt1) := recur nextState alpha beta stats tt
      let value1 := if isMaximizing then max value childValue else min value childValue
      let alpha1 := if isMaximizing then max alpha value1 else alpha
      let beta1 := if isMaximizing then beta else min beta value1
      if beta1 ≤ alpha1 then (value1, stats1, tt1)
      else searchLoop recur effectiveState isMaximizing rest value1 alpha1 beta1 stats1 tt1

/-- Everything `minimax` does after the `main_precombat` checkpoint:
enumerate actions, pick the decision maker (the defender in
`declare_blockers`, else the active player), auto-resolve single-action
phases, run the α-β child loop, and cache the value when the node was a
`main_precombat` checkpoint. `statePhase` is the phase of the original
state (used for the cache guard, as in the source). -/
def minimaxBranch (recur : GameState → Int → Int → SearchStats → TT → Int × SearchStats × TT)
    (statePhase : Phase) (effectiveState : GameState) (stats : SearchStats) (tt : TT)
    (alpha beta : Int) : Int × SearchStats × TT :=
  let actions := enumerateLegalActions effectiveState
  if actions.length = 0 then (0, stats, tt)
  else
    let decisionMaker : PlayerId :=
      if effectiveState.phase = Phase.declare_blockers then
        if effectiveState.activePlayer = 0 then 1 else 0
      else effectiveState.activePlayer
    let isMaximizing := decide (decisionMaker = 0)
    if effectiveState.phase = Phase.first_strike_damage ∨
        effectiveState.phase = Phase.combat_damage ∨
        effectiveState.phase = Phase.cleanup then
      recur (applyAction effectiveState Action.pass) alpha beta stats tt
    else
      let value0 : Int := if isMaximizing then NEG_INF else POS_INF
      let (value, stats1, tt1) :=
        searchLoop recur effectiveState isMaximizing actions value0 alpha beta stats tt
      let tt2 :=
        if statePhase = Phase.main_precombat then ttSet tt1 (hashState effectiveState) value
        else tt1
      (value, stats1, tt2)

/-- `minimax` from `game-tree.ts`, with explicit fuel for the recursion.
The recursion of the source is bounded by the `depth >= maxDepth` check; the
fuel 0 fallback below is only reachable when `fuel` undershoots
`maxDepth - depth`, which the wrapper `minimax` never does. Order of checks
is the source's: statistics, game-over by life totals, depth limit,
stalemate and transposition lookup at `main_precombat`, then the branch. -/
def minimaxGo (fuel : Nat) (state : GameState) (depth maxDepth : Nat) (stats : SearchStats)
    (tt : TT) (alpha beta : Int) : Int × SearchStats × TT :=
  let stats1 := bumpStats stats depth
  match checkGameOver state with
  | some .draw => (0, stats1, tt)
  | some (.win winner) => ((if winner = 0 then 1 else -1 : Int), stats1, tt)
  | none =>
    if depth ≥ maxDepth then (0, { stats1 with terminatedByDepthLimit := true }, tt)
    else
      match fuel with
      | 0 => (0, stats1, tt)
      | fuel' + 1 =>
        let recur : GameState → Int → Int → SearchStats → TT → Int × SearchStats × TT :=
          fun s a b st t => minimaxGo fuel' s (depth + 1) maxDepth st t a b
        if state.phase = Phase.main_precombat then
          match checkAndRecordStalemate state with
          | .stalemate => (0, stats1, tt)
          | .noStalemate effectiveState =>
            match ttGet tt (hashState effectiveState) with
            | some cached => (cached, stats1, tt)
            | none => minimaxBranch recur state.phase effectiveState stats1 tt alpha beta
        else minimaxBranch recur state.phase state stats1 tt alpha beta

/-- `minimax(state, depth, maxDepth, stats, tt, alpha, beta)` from
`game-tree.ts`. The fuel `maxDepth - depth` matches the source's recursion
bound: each recursive call raises `depth` by one and recursion stops at
`depth >= maxDepth`. -/
def minimax (state : GameState) (depth maxDepth : Nat) (stats : SearchStats) (tt : TT)
    (alpha beta : Int) : Int × SearchStats × TT :=
  minimaxGo (maxDepth - depth) state depth maxDepth stats tt alpha beta

/-- `simulateMatchup` from `game-tree.ts`: the unresolved-abilities
preflight short-circuit, else build the initial state, search, and translate
the sign of the value. -/
def simulateMatchup (deck0 deck1 : List Card) (maxDepth : Nat := 200) :
    MatchupResult × SearchStats :=
  let allCards := deck0 ++ deck1
  let unresolvedCards := allCards.filter hasUnresolvedAbilities
  if unresolvedCards.length > 0 then
    let state := createInitialState deck0 deck1
    (MatchupResult.unresolved
        ("cards with unresolved abilities: "
          ++ String.intercalate ", " (unresolvedCards.map fun c => c.name))
        state,
      { nodesExplored := 0, maxDepthReached := 0, terminatedByDepthLimit := false })
  else
    let state := createInitialState deck0 deck1
    let stats0 : SearchStats :=
      { nodesExplored := 0, maxDepthReached := 0, terminatedByDepthLimit := false }
    let (value, stats, _) := minimax state 0 maxDepth stats0 [] NEG_INF POS_INF
    let result :=
      if value > 0 then MatchupResult.player0Wins
      else if value < 0 then MatchupResult.player1Wins
      else MatchupResult.draw
    (result, stats)

/-! ## Test fixtures: concrete cards, permanents and states -/

/-- A creature card with the given name, power/toughness and keyword list. -/
def testCard (name : String) (p t : Int) (kws : List EvergreenKeyword) : Card where
  name := name
  manaCost := ""
  cmc := 0
  colors := []
  types := [CardType.creature]
  supertypes := []
  subtypes := []
  oracleText := ""
  power := some p
  toughness := some t
  loyalty := none
  abilities := kws.map fun k => Ability.keyword k none none
  scryfallId := "test"

/-- An untapped, non-sick battlefield instance of a card. -/
def testPerm (c : Card) (id : Nat) : Permanent where
  card := c
  tapped := false
  summoningSick := false
  damageMarked := 0
  isToken := false
  id := id

/-- A game state with both players at 20 life and empty zones, in the given
phase with the given combat state. -/
def testState (phase : Phase) (combat : Option CombatState) : GameState where
  activePlayer := 0
  players :=
    ({ life := 20, hand := [], battlefield := [], graveyard := [] },
     { life := 20, hand := [], battlefield := [], graveyard := [] })
  turn := 1
  phase := phase
  combat := combat
  stateHistory := []
  nextPermanentId := 0

/-- Attacker for the lifelink/trample interaction: 3/3 with both keywords. -/
def tramplingLifelinker : Permanent :=
  testPerm (testCard "Trampling Lifelinker" 3 3 [.trample, .lifelink]) 1

/-- A vanilla 1/1 chump blocker. -/
def chumpBlocker : Permanent :=
  testPerm (testCard "Chump" 1 1 []) 2

/-- A 0-toughness creature that participates in combat untouched. -/
def zeroZeroAttacker : Permanent :=
  testPerm (testCard "Zero" 0 0 []) 3

/-- An untapped, summoning-sick creature whose only keyword is vigilance. -/
def vigilantSickCreature : Permanent :=
  { testPerm (testCard "Vigilant Recruit" 2 2 [.vigilance]) 4 with summoningSick := true }

/-- An untapped, summoning-sick creature with haste, on player 0's board. -/
def hastySickCreature : Permanent :=
  { testPerm (testCard "Hasty Goblin" 2 2 [.haste]) 5 with summoningSick := true }

/-- Player 0 about to declare attackers with `hastySickCreature` on board. -/
def declareState : GameState :=
  let base := testState .declare_attackers none
  { base with players := ({ base.players.1 with battlefield := [hastySickCreature] }, base.players.2) }

/-- A card whose oracle text the parser refused to classify. -/
def unresolvedCard : Card :=
  { testCard "Mystery Wall" 0 4 [] with
    abilities := [Ability.unresolved "Whenever a creature dies, draw a card." "no matching parser rule"] }

/-- A plain 2/2 bear. -/
def bearCard : Card := testCard "Bear" 2 2 []

/-- A `main_precombat` state whose own hash is already in its history. -/
def stalemateState : GameState :=
  { testState Phase.main_precombat none with
    stateHistory := [hashState (testState Phase.main_precombat none)] }

/-- A vanilla 3/3 attacker for the damage-partition witness. -/
def c1Attacker : Permanent := testPerm (testCard "Brute" 3 3 []) 10

/-- A vanilla 2/2 blocker for the damage-partition witness. -/
def c1Blocker : Permanent := testPerm (testCard "Guard" 2 2 []) 11

/-! ## Small helper lemmas shared across claims -/

/-- Sum of damage totals in an accumulator map. -/
def mapTotalSum (m : IdMap DamageEntry) : Int :=
  (m.map fun kv => kv.2.total).sum

theorem mapTotalSum_addDamage (m : IdMap DamageEntry) (id : Nat) (amt : Int) (dt : Bool) :
    mapTotalSum (addDamage m id amt dt) = mapTotalSum m + amt := by
  induction m with
  | nil => simp [addDamage, mapTotalSum]
  | cons kv rest ih =>
      by_cases h : kv.1 = id
      · simp [addDamage, h, mapTotalSum]
        ring
      · simp [addDamage, h, mapTotalSum] at ih ⊢
        omega

theorem mapGet_addDamage_ne (m : IdMap DamageEntry) (id : Nat) (amt : Int) (dt : Bool)
    (k : Nat) (h : k ≠ id) : mapGet (addDamage m id amt dt) k = mapGet m k := by
  induction m with
  | nil => simp [addDamage, mapGet, Ne.symm h]
  | cons kv rest ih =>
      by_cases hk : kv.1 = id
      · simp [addDamage, hk, mapGet, Ne.symm h]
      · by_cases hk2 : kv.1 = k <;> simp [addDamage, hk, mapGet, hk2, ih, h]

theorem deltaGet_deltaAdd_same (d : Int × Int) (p : PlayerId) (x : Int) :
    deltaGet (deltaAdd d p x) p = deltaGet d p + x := by
  by_cases h : p = 0 <;> simp [deltaGet, deltaAdd, h]

theorem deltaGet_deltaAdd_other (d : Int × Int) (p q : PlayerId) (x : Int) (h : q ≠ p) :
    deltaGet (deltaAdd d p x) q = deltaGet d q := by
  by_cases hp : p = 0 <;> by_cases hq : q = 0
  · exact absurd (hq.trans hp.symm) h
  · simp [deltaGet, deltaAdd, hp, hq]
  · simp [deltaGet, deltaAdd, hp, hq]
  · refine absurd (Fin.ext ?_) h
    have h1 : p.val ≠ 0 := fun hv => hp (Fin.ext hv)
    have h2 : q.val ≠ 0 := fun hv => hq (Fin.ext hv)
    have h3 := p.isLt
    have h4 := q.isLt
    omega

theorem opponent_ne (p : PlayerId) : opponent p ≠ p := by
  revert p
  decide

theorem assignLethalLoop_sum (dt : Bool) (bs : List Permanent) :
    ∀ (m : IdMap DamageEntry) (R : Int),
      mapTotalSum (assignLethalLoop dt m R bs).1
        = mapTotalSum m + (R - (assignLethalLoop dt m R bs).2) := by
  induction bs with
  | nil => intro m R; simp [assignLethalLoop]
  | cons b rest ih =>
      intro m R
      by_cases hR : R ≤ 0
      · simp [assignLethalLoop, hR]
      · simp only [assignLethalLoop, if_neg hR]
        rw [ih, mapTotalSum_addDamage]
        ring

theorem assignLethalLoop_rem (dt : Bool) (bs : List Permanent) :
    ∀ (m : IdMap DamageEntry) (R : Int), 0 ≤ R →
      0 ≤ (assignLethalLoop dt m R bs).2 ∧ (assignLethalLoop dt m R bs).2 ≤ R := by
  induction bs with
  | nil => intro m R hR; simp [assignLethalLoop, hR]
  | cons b rest ih =>
      intro m R hR
      by_cases hle : R ≤ 0
      · simp [assignLethalLoop, hle, hR]
      · simp only [assignLethalLoop, if_neg hle]
        have hlethal : (0 : Int) ≤
            (if dt then 1
             else max 0 (getEffectiveToughness b -
               ((mapGet m b.id).map DamageEntry.total |>.getD 0))) := by
          by_cases hdt : dt <;> simp [hdt]
        set lethal := (if dt then (1 : Int)
          else max 0 (getEffectiveToughness b -
            ((mapGet m b.id).map DamageEntry.total |>.getD 0))) with hl
        have hA0 : 0 ≤ min R lethal := le_min hR hlethal
        have hAR : min R lethal ≤ R := min_le_left _ _
        have := ih (addDamage m b.id (min R lethal) dt) (R - min R lethal) (by omega)
        omega

theorem assignLethalLoop_get_ne (dt : Bool) (bs : List Permanent) :
    ∀ (m : IdMap DamageEntry) (R : Int) (k : Nat),
      k ∉ bs.map (fun b => b.id) →
      mapGet (assignLethalLoop dt m R bs).1 k = mapGet m k := by
  induction bs with
  | nil => intro m R k _; simp [assignLethalLoop]
  | cons b rest ih =>
      intro m R k hk
      simp only [List.map_cons, List.mem_cons, not_or] at hk
      by_cases hle : R ≤ 0
      · simp [assignLethalLoop, hle]
      · simp only [assignLethalLoop, if_neg hle]
        rw [ih _ _ _ hk.2, mapGet_addDamage_ne _ _ _ _ _ hk.1]

theorem claimLethalAmounts_length (dt : Bool) (f : Permanent → Int) :
    ∀ (bs : List Permanent) (R : Int), (claimLethalAmounts dt f R bs).1.length = bs.length := by
  intro bs
  induction bs with
  | nil => intro R; rfl
  | cons b rest ih => intro R; simp [claimLethalAmounts, ih]

theorem claimLethalAmounts_zero (dt : Bool) (f : Permanent → Int) :
    ∀ bs : List Permanent, (claimLethalAmounts dt f 0 bs).2 = 0
      ∧ ∀ i : Nat, (claimLethalAmounts dt f 0 bs).1.getD i 0 = 0 := by
  intro bs
  induction bs with
  | nil => exact ⟨rfl, fun i => by simp [claimLethalAmounts]⟩
  | cons b rest ih =>
      have hl : (0 : Int) ≤ if dt then 1 else max 0 (getEffectiveToughness b - f b) := by
        by_cases hdt : dt <;> simp [hdt]
      have hmin : min (0 : Int) (if dt then 1 else max 0 (getEffectiveToughness b - f b)) = 0 :=
        min_eq_left hl
      refine ⟨?_, ?_⟩
      · simp [claimLethalAmounts, hmin, ih.1]
      · intro i
        cases i with
        | zero => simp [claimLethalAmounts, hmin]
        | succ n => simpa [claimLethalAmounts, hmin] using ih.2 n

theorem claimLethalAmounts_cap (dt : Bool) (f : Permanent → Int) :
    ∀ (bs : List Permanent) (R : Int) (i : Nat) (hi : i < bs.length),
      (claimLethalAmounts dt f R bs).1.getD i 0
        ≤ (if dt then 1
           else max 0 (getEffectiveToughness (bs.get ⟨i, hi⟩) - f (bs.get ⟨i, hi⟩))) := by
  intro bs
  induction bs with
  | nil => intro R i hi; simp at hi
  | cons b rest ih =>
      intro R i hi
      cases i with
      | zero => simpa [claimLethalAmounts] using min_le_right _ _
      | succ n =>
          simp only [claimLethalAmounts, List.getD_cons_succ, List.get_cons_succ]
          exact ih _ n (by simpa using hi)

theorem claimLethalAmounts_sum (dt : Bool) (f : Permanent → Int) :
    ∀ (bs : List Permanent) (R : Int), 0 ≤ R →
      0 ≤ (claimLethalAmounts dt f R bs).2
      ∧ (claimLethalAmounts dt f R bs).1.sum + (claimLethalAmounts dt f R bs).2 = R := by
  intro bs
  induction bs with
  | nil => intro R hR; exact ⟨hR, by simp [claimLethalAmounts]⟩
  | cons b rest ih =>
      intro R hR
      have hl : (0 : Int) ≤ if dt then 1 else max 0 (getEffectiveToughness b - f b) := by
        by_cases hdt : dt <;> simp [hdt]
      have hA0 : 0 ≤ min R (if dt then 1 else max 0 (getEffectiveToughness b - f b)) :=
        le_min hR hl
      have hAR : min R (if dt then 1 else max 0 (getEffectiveToughness b - f b)) ≤ R :=
        min_le_left _ _
      have hrec := ih (R - min R (if dt then 1 else max 0 (getEffectiveToughness b - f b)))
        (by omega)
      constructor
      · simpa [claimLethalAmounts] using hrec.1
      · simp only [claimLethalAmounts, List.sum_cons]
        omega

theorem damageTotalAt_addDamage_same (m : IdMap DamageEntry) (id : Nat) (a : Int) (dt : Bool) :
    damageTotalAt (addDamage m id a dt) id = damageTotalAt m id + a := by
  induction m with
  | nil => simp [damageTotalAt, addDamage, mapGet]
  | cons kv rest ih =>
      by_cases hk : kv.1 = id
      · simp [damageTotalAt, addDamage, hk, mapGet]
      · simpa [damageTotalAt, addDamage, hk, mapGet] using ih

theorem damageTotalAt_addDamage_ne (m : IdMap DamageEntry) (id : Nat) (a : Int) (dt : Bool)
    (k : Nat) (h : k ≠ id) : damageTotalAt (addDamage m id a dt) k = damageTotalAt m k := by
  simp [damageTotalAt, mapGet_addDamage_ne m id a dt k h]

theorem damageTotalAt_congr {m1 m2 : IdMap DamageEntry} {k : Nat}
    (h : mapGet m1 k = mapGet m2 k) : damageTotalAt m1 k = damageTotalAt m2 k := by
  simp [damageTotalAt, h]

/-- The ordered lethal pass of the resolver computes exactly the claim-side
amounts: over blockers with distinct ids whose prior accumulated damage is
given by `f`, the loop's remaining damage equals the claim's, and each
blocker's accumulator total rises by precisely its claim-side amount. -/
theorem assignLethalLoop_spec (dt : Bool) :
    ∀ (bs : List Permanent) (m : IdMap DamageEntry) (R : Int) (f : Permanent → Int),
      0 ≤ R →
      (bs.map fun b => b.id).Nodup →
      (∀ b ∈ bs, f b = damageTotalAt m b.id) →
      (assignLethalLoop dt m R bs).2 = (claimLethalAmounts dt f R bs).2
      ∧ ∀ (i : Nat) (hi : i < bs.length),
          damageTotalAt (assignLethalLoop dt m R bs).1 (bs.get ⟨i, hi⟩).id
            = damageTotalAt m (bs.get ⟨i, hi⟩).id
              + (claimLethalAmounts dt f R bs).1.getD i 0 := by
  intro bs
  induction bs with
  | nil =>
      intro m R f _ _ _
      exact ⟨rfl, fun i hi => by simp at hi⟩
  | cons b rest ih =>
      intro m R f hR hnd hf
      have hfb : f b = damageTotalAt m b.id := hf b (List.mem_cons_self _ _)
      have hbid : b.id ∉ rest.map fun b => b.id := by
        simp only [List.map_cons, List.nodup_cons] at hnd
        exact hnd.1
      have hnd' : (rest.map fun b => b.id).Nodup := by
        simp only [List.map_cons, List.nodup_cons] at hnd
        exact hnd.2
      by_cases hle : R ≤ 0
      · have hR0 : R = 0 := le_antisymm hle hR
        subst hR0
        have hz := claimLethalAmounts_zero dt f (b :: rest)
        have h1 : (assignLethalLoop dt m 0 (b :: rest)).1 = m := by simp [assignLethalLoop]
        refine ⟨by simp [assignLethalLoop, hz.1], fun i hi => ?_⟩
        rw [h1, hz.2 i, add_zero]
      · have hclaim : claimLethalAmounts dt f R (b :: rest)
            = (min R (if dt then 1
                  else max 0 (getEffectiveToughness b - damageTotalAt m b.id))
                :: (claimLethalAmounts dt f
                  (R - min R (if dt then 1
                    else max 0 (getEffectiveToughness b - damageTotalAt m b.id))) rest).1,
               (claimLethalAmounts dt f
                  (R - min R (if dt then 1
                    else max 0 (getEffectiveToughness b - damageTotalAt m b.id))) rest).2) := by
          simp only [claimLethalAmounts, hfb]
        have hloop : assignLethalLoop dt m R (b :: rest)
            = assignLethalLoop dt
                (addDamage m b.id
                  (min R (if dt then 1
                    else max 0 (getEffectiveToughness b - damageTotalAt m b.id))) dt)
                (R - min R (if dt then 1
                  else max 0 (getEffectiveToughness b - damageTotalAt m b.id))) rest := by
          simp only [assignLethalLoop, if_neg hle]
          rfl
        set A := min R (if dt then 1
          else max 0 (getEffectiveToughness b - damageTotalAt m b.id)) with hA
        have hl0 : (0 : Int) ≤ if dt then 1
            else max 0 (getEffectiveToughness b - damageTotalAt m b.id) := by
          by_cases hdt : dt <;> simp [hdt]
        have hA0 : 0 ≤ A := le_min hR hl0
        have hAR : A ≤ R := min_le_left _ _
        have hfrest : ∀ b' ∈ rest, f b' = damageTotalAt (addDamage m b.id A dt) b'.id := by
          intro b' hb'
          have hne : b'.id ≠ b.id := by
            intro he
            apply hbid
            rw [← he]
            exact List.mem_map_of_mem (fun x => x.id) hb'
          rw [hf b' (List.mem_cons_of_mem _ hb'), damageTotalAt_addDamage_ne _ _ _ _ _ hne]
        have hrec := ih (addDamage m b.id A dt) (R - A) f (by omega) hnd' hfrest
        constructor
        · rw [hloop, hclaim]
          exact hrec.1
        · intro i hi
          cases i with
          | zero =>
              rw [hloop, hclaim]
              simp only [List.getD_cons_zero]
              show damageTotalAt (assignLethalLoop dt (addDamage m b.id A dt) (R - A) rest).1 b.id
                = damageTotalAt m b.id + A
              rw [damageTotalAt_congr
                  (assignLethalLoop_get_ne dt rest (addDamage m b.id A dt) (R - A) b.id hbid),
                damageTotalAt_addDamage_same]
          | succ n =>
              rw [hloop, hclaim]
              simp only [List.getD_cons_succ]
              have hn : n < rest.length := by simpa using hi
              show damageTotalAt (assignLethalLoop dt (addDamage m b.id A dt) (R - A) rest).1
                    (rest.get ⟨n, hn⟩).id
                = damageTotalAt m (rest.get ⟨n, hn⟩).id
                  + (claimLethalAmounts dt f (R - A) rest).1.getD n 0
              have hne : (rest.get ⟨n, hn⟩).id ≠ b.id := by
                intro he
                apply hbid
                rw [← he]
                exact List.mem_map_of_mem (fun x => x.id) (List.get_mem rest n hn)
              rw [hrec.2 n hn, damageTotalAt_addDamage_ne _ _ _ _ _ hne]

/-- The three facts of claim C1 at the level of the blocked branch. -/
theorem attackerBlockedBranch_partition (activePlayer : PlayerId) (attacker : Permanent)
    (blockers : List Permanent) (acc : StepAcc)
    (hp : 0 < getEffectivePower attacker) (hbs : blockers ≠ []) :
    ((mapTotalSum (attackerBlockedBranch activePlayer attacker blockers acc).damageMap
        - mapTotalSum acc.damageMap)
      + (deltaGet acc.lifeDelta (opponent activePlayer)
        - deltaGet (attackerBlockedBranch activePlayer attacker blockers acc).lifeDelta
            (opponent activePlayer))
      = getEffectivePower attacker)
    ∧ (hasKeyword attacker .trample = false →
        deltaGet (attackerBlockedBranch activePlayer attacker blockers acc).lifeDelta
            (opponent activePlayer)
          = deltaGet acc.lifeDelta (opponent activePlayer)
        ∧ mapTotalSum (attackerBlockedBranch activePlayer attacker blockers acc).damageMap
          = mapTotalSum acc.damageMap + getEffectivePower attacker)
    ∧ (∀ k, k ∉ blockers.map (fun b => b.id) →
        mapGet (attackerBlockedBranch activePlayer attacker blockers acc).damageMap k
          = mapGet acc.damageMap k) := by
  have hne : opponent activePlayer ≠ activePlayer := opponent_ne activePlayer
  have hsum := assignLethalLoop_sum (hasKeyword attacker .deathtouch) blockers
    acc.damageMap (getEffectivePower attacker)
  have hrem := assignLethalLoop_rem (hasKeyword attacker .deathtouch) blockers
    acc.damageMap (getEffectivePower attacker) (le_of_lt hp)
  have hget := assignLethalLoop_get_ne (hasKeyword attacker .deathtouch) blockers
    acc.damageMap (getEffectivePower attacker)
  have hlb : blockers.getLast? = some (blockers.getLast hbs) :=
    List.getLast?_eq_getLast blockers hbs
  have hlbmem : blockers.getLast hbs ∈ blockers := List.getLast_mem hbs
  set F := assignLethalLoop (hasKeyword attacker .deathtouch) acc.damageMap
    (getEffectivePower attacker) blockers with hF
  refine ⟨?_, ?_, ?_⟩
  · -- total conservation
    by_cases hr : F.2 > 0
    · by_cases htr : hasKeyword attacker .trample <;>
        by_cases hll : hasKeyword attacker .lifelink <;>
        · simp [attackerBlockedBranch, ← hF, hlb, hr, htr, hll, gt_iff_lt,
            deltaGet_deltaAdd_same, deltaGet_deltaAdd_other _ _ _ _ hne,
            mapTotalSum_addDamage]
          omega
    · by_cases hll : hasKeyword attacker .lifelink <;>
        · simp [attackerBlockedBranch, ← hF, hr, hll, gt_iff_lt,
            deltaGet_deltaAdd_same, deltaGet_deltaAdd_other _ _ _ _ hne]
          omega
  · -- no trample: the defender delta is untouched, all power to blockers
    intro htr
    by_cases hr : F.2 > 0
    · constructor
      · by_cases hll : hasKeyword attacker .lifelink <;>
          simp [attackerBlockedBranch, ← hF, hlb, hr, htr, hll, gt_iff_lt,
            deltaGet_deltaAdd_same, deltaGet_deltaAdd_other _ _ _ _ hne]
      · simp [attackerBlockedBranch, ← hF, hlb, hr, htr, gt_iff_lt, mapTotalSum_addDamage]
        omega
    · constructor
      · by_cases hll : hasKeyword attacker .lifelink <;>
          simp [attackerBlockedBranch, ← hF, hr, htr, hll, gt_iff_lt,
            deltaGet_deltaAdd_same, deltaGet_deltaAdd_other _ _ _ _ hne]
      · simp [attackerBlockedBranch, ← hF, hr, gt_iff_lt]
        omega
  · -- ids outside the blocker list keep their accumulator entries
    intro k hk
    have hklb : k ≠ (blockers.getLast hbs).id := fun hkeq =>
      hk (hkeq ▸ List.mem_map_of_mem (fun b => b.id) hlbmem)
    by_cases hr : F.2 > 0
    · by_cases htr : hasKeyword attacker .trample
      · simp [attackerBlockedBranch, ← hF, hlb, hr, htr, gt_iff_lt]
        exact hget _ hk
      · simp [attackerBlockedBranch, ← hF, hlb, hr, htr, gt_iff_lt]
        rw [mapGet_addDamage_ne _ _ _ _ _ hklb]
        exact hget _ hk
    · simp [attackerBlockedBranch, ← hF, hr, gt_iff_lt]
      exact hget _ hk

/-- Per-blocker routing of the blocked branch: over blockers with distinct
ids, each blocker's accumulator total rises by exactly its claim-side
lethal-pass amount; the remainder additionally lands on the last blocker of
the declared list when the attacker lacks trample, and is dealt to the
defending player instead when it has trample. -/
theorem attackerBlockedBranch_perBlocker (activePlayer : PlayerId) (attacker : Permanent)
    (blockers : List Permanent) (acc : StepAcc)
    (hp : 0 < getEffectivePower attacker) (hbs : blockers ≠ [])
    (hnd : (blockers.map fun b => b.id).Nodup) :
    (∀ (i : Nat) (hi : i < blockers.length),
      damageTotalAt (attackerBlockedBranch activePlayer attacker blockers acc).damageMap
          (blockers.get ⟨i, hi⟩).id
        = damageTotalAt acc.damageMap (blockers.get ⟨i, hi⟩).id
          + (claimLethalAmounts (hasKeyword attacker .deathtouch)
              (fun b => damageTotalAt acc.damageMap b.id)
              (getEffectivePower attacker) blockers).1.getD i 0
          + (if hasKeyword attacker .trample = false ∧ i + 1 = blockers.length then
              (claimLethalAmounts (hasKeyword attacker .deathtouch)
                (fun b => damageTotalAt acc.damageMap b.id)
                (getEffectivePower attacker) blockers).2
             else 0))
    ∧ (hasKeyword attacker .trample = true →
        deltaGet acc.lifeDelta (opponent activePlayer)
          - deltaGet (attackerBlockedBranch activePlayer attacker blockers acc).lifeDelta
              (opponent activePlayer)
          = (claimLethalAmounts (hasKeyword attacker .deathtouch)
              (fun b => damageTotalAt acc.damageMap b.id)
              (getEffectivePower attacker) blockers).2) := by
  have hne : opponent activePlayer ≠ activePlayer := opponent_ne activePlayer
  have hspec := assignLethalLoop_spec (hasKeyword attacker .deathtouch) blockers
    acc.damageMap (getEffectivePower attacker)
    (fun b => damageTotalAt acc.damageMap b.id) (le_of_lt hp) hnd (fun b _ => rfl)
  have hrem := assignLethalLoop_rem (hasKeyword attacker .deathtouch) blockers
    acc.damageMap (getEffectivePower attacker) (le_of_lt hp)
  have hlb : blockers.getLast? = some (blockers.getLast hbs) :=
    List.getLast?_eq_getLast blockers hbs
  have hlen : 0 < blockers.length := List.length_pos.mpr hbs
  have hlast_get : blockers.getLast hbs = blockers.get ⟨blockers.length - 1, by omega⟩ :=
    List.getLast_eq_get blockers hbs
  set F := assignLethalLoop (hasKeyword attacker .deathtouch) acc.damageMap
    (getEffectivePower attacker) blockers with hF
  have hid_ne : ∀ (i : Nat) (hi : i < blockers.length), i + 1 ≠ blockers.length →
      (blockers.get ⟨i, hi⟩).id ≠ (blockers.getLast hbs).id := by
    intro i hi hne1 he
    rw [hlast_get] at he
    have hmi : ((blockers.map fun b => b.id).get ⟨i, by simpa using hi⟩)
        = ((blockers.map fun b => b.id).get ⟨blockers.length - 1, by simp; omega⟩) := by
      rw [List.get_map, List.get_map]
      exact he
    have hfin := (List.Nodup.get_inj_iff hnd).mp hmi
    have hvals : i = blockers.length - 1 := by
      simpa using congrArg Fin.val hfin
    omega
  have habb : (attackerBlockedBranch activePlayer attacker blockers acc).damageMap
      = (if F.2 > 0 then
          (if hasKeyword attacker .trample then F.1
           else addDamage F.1 (blockers.getLast hbs).id F.2 (hasKeyword attacker .deathtouch))
         else F.1) := by
    by_cases hr : F.2 > 0
    · by_cases htr : hasKeyword attacker .trample <;>
        simp [attackerBlockedBranch, ← hF, hlb, hr, htr, gt_iff_lt]
    · simp [attackerBlockedBranch, ← hF, hlb, hr, gt_iff_lt]
  constructor
  · intro i hi
    rw [habb]
    by_cases hr : F.2 > 0
    · by_cases htr : hasKeyword attacker .trample
      · rw [if_pos hr, if_pos htr, hspec.2 i hi]
        simp [htr]
      · rw [if_pos hr, if_neg htr]
        have htr' : hasKeyword attacker .trample = false := by
          revert htr
          cases hasKeyword attacker .trample <;> simp
        by_cases hl : i + 1 = blockers.length
        · have hieq : i = blockers.length - 1 := by omega
          subst hieq
          rw [hlast_get, damageTotalAt_addDamage_same, hspec.2 _ hi,
            if_pos ⟨htr', by omega⟩, ← hspec.1]
        · rw [damageTotalAt_addDamage_ne _ _ _ _ _ (hid_ne i hi hl), hspec.2 i hi,
            if_neg (fun hc => hl hc.2), add_zero]
    · rw [if_neg hr, hspec.2 i hi]
      have h0 : F.2 = 0 := by
        have := hrem.1
        omega
      by_cases hc : hasKeyword attacker .trample = false ∧ i + 1 = blockers.length
      · rw [if_pos hc, ← hspec.1, h0, add_zero]
      · rw [if_neg hc, add_zero]
  · intro htr
    rw [← hspec.1]
    by_cases hr : F.2 > 0
    · by_cases hll : hasKeyword attacker .lifelink <;>
        · simp [attackerBlockedBranch, ← hF, hlb, hr, htr, hll, gt_iff_lt,
            deltaGet_deltaAdd_same, deltaGet_deltaAdd_other _ _ _ _ hne]
          try omega
    · have h0 : F.2 = 0 := by
        have := hrem.1
        omega
      by_cases hll : hasKeyword attacker .lifelink <;>
        · simp [attackerBlockedBranch, ← hF, hlb, hr, htr, hll, gt_iff_lt,
            deltaGet_deltaAdd_same, deltaGet_deltaAdd_other _ _ _ _ hne]
          try omega

/-- Claim C1: for every blocked attacker with positive power that is
eligible to deal damage in the current step (its assigned blockers having
distinct ids), the attacker-loop body of `resolveCombatDamage` assigns
damage totaling exactly the attacker's power, partitioned as the claim
describes: walking the blocker list in declared order, blocker `i` receives
exactly the claim-side amount `min(remaining, lethal)` with
`lethal = 1` under deathtouch and otherwise the blocker's toughness minus
the damage already accumulated on it (each amount therefore at most lethal,
stated separately); the remainder goes to the defending player when the
attacker has trample and otherwise lands on the last blocker of the list;
the amounts and remainder sum to the power; without trample the defender's
delta is untouched and the whole power lands in the accumulator; and no id
outside the blocker list gains damage (no double counting). -/
theorem c1_blocked_attacker_damage_partition
    (blockerMap : IdMap (List Permanent)) (activePlayer : PlayerId) (isFirstStrike : Bool)
    (acc : StepAcc) (attacker : Permanent)
    (hp : 0 < getEffectivePower attacker)
    (hs : strikesInStep attacker isFirstStrike = true)
    (hb : (mapGet blockerMap attacker.id).getD [] ≠ [])
    (hnd : (((mapGet blockerMap attacker.id).getD []).map fun b => b.id).Nodup) :
    ((mapTotalSum (processAttacker blockerMap activePlayer isFirstStrike acc attacker).damageMap
        - mapTotalSum acc.damageMap)
      + (deltaGet acc.lifeDelta (opponent activePlayer)
        - deltaGet (processAttacker blockerMap activePlayer isFirstStrike acc attacker).lifeDelta
            (opponent activePlayer))
      = getEffectivePower attacker)
    ∧ (hasKeyword attacker .trample = false →
        deltaGet (processAttacker blockerMap activePlayer isFirstStrike acc attacker).lifeDelta
            (opponent activePlayer)
          = deltaGet acc.lifeDelta (opponent activePlayer)
        ∧ mapTotalSum (processAttacker blockerMap activePlayer isFirstStrike acc attacker).damageMap
          = mapTotalSum acc.damageMap + getEffectivePower attacker)
    ∧ (∀ k, k ∉ ((mapGet blockerMap attacker.id).getD []).map (fun b => b.id) →
        mapGet (processAttacker blockerMap activePlayer isFirstStrike acc attacker).damageMap k
          = mapGet acc.damageMap k)
    ∧ (∀ (i : Nat) (hi : i < ((mapGet blockerMap attacker.id).getD []).length),
        damageTotalAt
            (processAttacker blockerMap activePlayer isFirstStrike acc attacker).damageMap
            (((mapGet blockerMap attacker.id).getD []).get ⟨i, hi⟩).id
          = damageTotalAt acc.damageMap (((mapGet blockerMap attacker.id).getD []).get ⟨i, hi⟩).id
            + (claimLethalAmounts (hasKeyword attacker .deathtouch)
                (fun b => damageTotalAt acc.damageMap b.id) (getEffectivePower attacker)
                ((mapGet blockerMap attacker.id).getD [])).1.getD i 0
            + (if hasKeyword attacker .trample = false
                  ∧ i + 1 = ((mapGet blockerMap attacker.id).getD []).length then
                (claimLethalAmounts (hasKeyword attacker .deathtouch)
                  (fun b => damageTotalAt acc.damageMap b.id) (getEffectivePower attacker)
                  ((mapGet blockerMap attacker.id).getD [])).2
               else 0))
    ∧ (∀ (i : Nat) (hi : i < ((mapGet blockerMap attacker.id).getD []).length),
        (claimLethalAmounts (hasKeyword attacker .deathtouch)
            (fun b => damageTotalAt acc.damageMap b.id) (getEffectivePower attacker)
            ((mapGet blockerMap attacker.id).getD [])).1.getD i 0
          ≤ (if hasKeyword attacker .deathtouch then 1
             else max 0 (getEffectiveToughness (((mapGet blockerMap attacker.id).getD []).get ⟨i, hi⟩)
               - damageTotalAt acc.damageMap
                   (((mapGet blockerMap attacker.id).getD []).get ⟨i, hi⟩).id)))
    ∧ (0 ≤ (claimLethalAmounts (hasKeyword attacker .deathtouch)
            (fun b => damageTotalAt acc.damageMap b.id) (getEffectivePower attacker)
            ((mapGet blockerMap attacker.id).getD [])).2
        ∧ (claimLethalAmounts (hasKeyword attacker .deathtouch)
            (fun b => damageTotalAt acc.damageMap b.id) (getEffectivePower attacker)
            ((mapGet blockerMap attacker.id).getD [])).1.sum
          + (claimLethalAmounts (hasKeyword attacker .deathtouch)
              (fun b => damageTotalAt acc.damageMap b.id) (getEffectivePower attacker)
              ((mapGet blockerMap attacker.id).getD [])).2
          = getEffectivePower attacker)
    ∧ (hasKeyword attacker .trample = true →
        deltaGet acc.lifeDelta (opponent activePlayer)
          - deltaGet (processAttacker blockerMap activePlayer isFirstStrike acc attacker).lifeDelta
              (opponent activePlayer)
          = (claimLethalAmounts (hasKeyword attacker .deathtouch)
              (fun b => damageTotalAt acc.damageMap b.id) (getEffectivePower attacker)
              ((mapGet blockerMap attacker.id).getD [])).2) := by
  have hnp : ¬(getEffectivePower attacker ≤ 0) := not_le.mpr hp
  have hpe : processAttacker blockerMap activePlayer isFirstStrike acc attacker
      = attackerBlockedBranch activePlayer attacker ((mapGet blockerMap attacker.id).getD []) acc := by
    cases hbs : (mapGet blockerMap attacker.id).getD [] with
    | nil => exact absurd hbs hb
    | cons b bs => simp [processAttacker, hbs, hs, hnp]
  have hpart := attackerBlockedBranch_partition activePlayer attacker _ acc hp hb
  have hper := attackerBlockedBranch_perBlocker activePlayer attacker _ acc hp hb hnd
  rw [hpe]
  exact ⟨hpart.1, hpart.2.1, hpart.2.2, hper.1,
    claimLethalAmounts_cap (hasKeyword attacker .deathtouch)
      (fun b => damageTotalAt acc.damageMap b.id) _ _,
    claimLethalAmounts_sum (hasKeyword attacker .deathtouch)
      (fun b => damageTotalAt acc.damageMap b.id) _ _ (le_of_lt hp),
    hper.2⟩

/-- Witness for claim C1: a vanilla 3/3 attacker blocked by a single 2/2 in
the regular damage step; its damage-conservation equation and the
per-blocker routing hold there. -/
theorem c1_witness :
    0 < getEffectivePower c1Attacker
    ∧ strikesInStep c1Attacker false = true
    ∧ (mapGet [(10, [c1Blocker])] c1Attacker.id).getD [] ≠ []
    ∧ ((((mapGet [(10, [c1Blocker])] c1Attacker.id).getD []).map fun b => b.id).Nodup)
    ∧ (mapTotalSum (processAttacker [(10, [c1Blocker])] 0 false ⟨[], (0, 0)⟩ c1Attacker).damageMap
        - mapTotalSum (⟨[], (0, 0)⟩ : StepAcc).damageMap)
      + (deltaGet (⟨[], (0, 0)⟩ : StepAcc).lifeDelta (opponent 0)
        - deltaGet (processAttacker [(10, [c1Blocker])] 0 false ⟨[], (0, 0)⟩ c1Attacker).lifeDelta
            (opponent 0))
      = getEffectivePower c1Attacker :=
  ⟨by decide, by decide, by decide, by decide,
    (c1_blocked_attacker_damage_partition [(10, [c1Blocker])] 0 false ⟨[], (0, 0)⟩ c1Attacker
      (by decide) (by decide) (by decide) (by decide)).1⟩

/-- Claim C3 (code-bug evidence): a 3/3 attacker with trample and lifelink,
blocked by a 1/1, deals 1 damage to the blocker and 2 to the defending
player — 3 total — but `resolveCombatDamage` credits the active player with
5 life: the trample branch adds the excess (2) and the final lifelink credit
then adds the full power (3) again. The claim (and the code's own comment)
require life gained to equal total damage dealt, i.e. 3. -/
theorem c3_trample_lifelink_overcount :
    processAttacker [(1, [chumpBlocker])] 0 false ⟨[], (0, 0)⟩ tramplingLifelinker
      = { damageMap := [(2, ⟨1, false⟩)], lifeDelta := (5, -2) }
    ∧ resolveCombatDamage [tramplingLifelinker] [(1, [chumpBlocker])] 0 false
      = { destroyed := [2], lifeDelta := (5, -2) }
    ∧ getEffectivePower tramplingLifelinker = 3
    ∧ hasKeyword tramplingLifelinker .trample = true
    ∧ hasKeyword tramplingLifelinker .lifelink = true
    ∧ (5 : Int) ≠ 1 + 2 := by
  decide

/-- Claim C4 (code-bug evidence): an untapped summoning-sick creature whose
only keyword is vigilance — no haste — is allowed to attack by `canAttack`,
because the sickness guard is `sick && !haste && !vigilance`. The claim (and
the code's own comment) say only haste exempts summoning sickness. -/
theorem c4_vigilance_exempts_sickness :
    canAttack vigilantSickCreature = true
    ∧ vigilantSickCreature.summoningSick = true
    ∧ hasKeyword vigilantSickCreature .haste = false
    ∧ hasKeyword vigilantSickCreature .vigilance = true
    ∧ vigilantSickCreature.tapped = false
    ∧ hasKeyword vigilantSickCreature .defender = false
    ∧ vigilantSickCreature.card.types.contains CardType.creature = true := by
  decide

/-- Claim C2 counterexample: a 0/0 creature attacks unblocked, so it
accumulates no damage entry this step. It is a combat participant, has no
indestructible, and its accumulated damage (zero) is ≥ its toughness (zero)
— so the claimed iff says it must be destroyed — yet `resolveCombatDamage`
does not destroy it: the destruction check only examines permanents with an
accumulator entry. -/
theorem c2_counterexample :
    zeroZeroAttacker ∈ combatParticipants [zeroZeroAttacker] []
    ∧ hasKeyword zeroZeroAttacker .indestructible = false
    ∧ getEffectiveToughness zeroZeroAttacker ≤ 0
    ∧ mapGet (combatDamageAcc [zeroZeroAttacker] [] 0 false).damageMap zeroZeroAttacker.id = none
    ∧ zeroZeroAttacker.id ∉ (resolveCombatDamage [zeroZeroAttacker] [] 0 false).destroyed := by
  decide

theorem isLethal_iff (perm : Permanent) (t : Int) (dt : Bool) :
    isLethalDamage perm t dt = true ↔
      hasKeyword perm .indestructible = false ∧
        (t ≥ getEffectiveToughness perm ∨ (dt = true ∧ t > 0)) := by
  by_cases hi : hasKeyword perm .indestructible
  · simp [isLethalDamage, hi]
  · by_cases hdt : dt <;> by_cases ht : (0 : Int) < t <;>
      simp [isLethalDamage, hi, hdt, ht, ge_iff_le, gt_iff_lt]

/-- Claim C2 (amended): after both sides' damage is summed for the step, a
combat participant's id is in `destroyed` iff the accumulator holds an entry
for it whose total and deathtouch flag make `isLethalDamage` true — that is,
the participant is not indestructible and either the entry's total is ≥ its
toughness or some of it came from a deathtouch source with total > 0.
Participants with no accumulator entry are never destroyed (the original
claim fails for untouched participants of toughness ≤ 0). In particular no
indestructible permanent ever appears in `destroyed`. -/
theorem c2_destroyed_iff
    (attackers : List Permanent) (blockerMap : IdMap (List Permanent))
    (activePlayer : PlayerId) (isFirstStrike : Bool)
    (hnd : ((combatParticipants attackers blockerMap).map (fun p => p.id)).Nodup)
    (perm : Permanent) (hmem : perm ∈ combatParticipants attackers blockerMap) :
    (perm.id ∈ (resolveCombatDamage attackers blockerMap activePlayer isFirstStrike).destroyed
      ↔ ∃ e, mapGet (combatDamageAcc attackers blockerMap activePlayer isFirstStrike).damageMap
              perm.id = some e
          ∧ hasKeyword perm .indestructible = false
          ∧ (e.total ≥ getEffectiveToughness perm ∨ (e.fromDeathtouch = true ∧ e.total > 0)))
    ∧ (hasKeyword perm .indestructible = true →
        perm.id ∉ (resolveCombatDamage attackers blockerMap activePlayer isFirstStrike).destroyed) := by
  have hdes : (resolveCombatDamage attackers blockerMap activePlayer isFirstStrike).destroyed
      = (combatParticipants attackers blockerMap).filterMap (fun q =>
          match mapGet (combatDamageAcc attackers blockerMap activePlayer isFirstStrike).damageMap
              q.id with
          | some dmg => if isLethalDamage q dmg.total dmg.fromDeathtouch then some q.id else none
          | none => none) := rfl
  have hfwd : perm.id ∈ (resolveCombatDamage attackers blockerMap activePlayer isFirstStrike).destroyed →
      ∃ e, mapGet (combatDamageAcc attackers blockerMap activePlayer isFirstStrike).damageMap
            perm.id = some e
        ∧ hasKeyword perm .indestructible = false
        ∧ (e.total ≥ getEffectiveToughness perm ∨ (e.fromDeathtouch = true ∧ e.total > 0)) := by
    intro h
    rw [hdes, List.mem_filterMap] at h
    obtain ⟨q, hq, hfq⟩ := h
    cases hmq : mapGet (combatDamageAcc attackers blockerMap activePlayer isFirstStrike).damageMap
        q.id with
    | none => rw [hmq] at hfq; simp at hfq
    | some dmg =>
        rw [hmq] at hfq
        simp only [Option.ite_none_right_eq_some, Option.some.injEq] at hfq
        obtain ⟨hl, hqid⟩ := hfq
        have hqperm : q = perm :=
          List.inj_on_of_nodup_map hnd hq hmem hqid
        subst hqperm
        obtain ⟨hind, hcond⟩ := (isLethal_iff q dmg.total dmg.fromDeathtouch).mp hl
        exact ⟨dmg, hmq, hind, hcond⟩
  refine ⟨⟨hfwd, ?_⟩, ?_⟩
  · rintro ⟨e, he, hind, hcond⟩
    rw [hdes, List.mem_filterMap]
    refine ⟨perm, hmem, ?_⟩
    rw [he]
    simp only [Option.ite_none_right_eq_some, Option.some.injEq]
    exact ⟨(isLethal_iff perm e.total e.fromDeathtouch).mpr ⟨hind, hcond⟩, trivial⟩
  · intro hind h
    obtain ⟨e, _, hfalse, _⟩ := hfwd h
    rw [hind] at hfalse
    exact absurd hfalse (by simp)

/-- Witness for claim C2: a 3/3 attacker blocked by a lone 2/2 — the
blocker takes 3 ≥ 2 damage and its id is destroyed, via the amended iff. -/
theorem c2_witness :
    ((combatParticipants [c1Attacker] [(10, [c1Blocker])]).map (fun p => p.id)).Nodup
    ∧ c1Blocker ∈ combatParticipants [c1Attacker] [(10, [c1Blocker])]
    ∧ c1Blocker.id ∈ (resolveCombatDamage [c1Attacker] [(10, [c1Blocker])] 0 false).destroyed :=
  ⟨by decide, by decide,
    ((c2_destroyed_iff [c1Attacker] [(10, [c1Blocker])] 0 false (by decide) c1Blocker
        (by decide)).1).mpr ⟨⟨3, false⟩, by decide, by decide, Or.inl (by decide)⟩⟩

theorem playersGet_playersSet_same (ps : PlayerState × PlayerState) (p : PlayerId)
    (v : PlayerState) : playersGet (playersSet ps p v) p = v := by
  by_cases h : p = 0 <;> simp [playersGet, playersSet, h]

theorem resolveCombatStep_activePlayer (s : GameState) (b : Bool) :
    (resolveCombatStep s b).activePlayer = s.activePlayer := by
  cases hc : s.combat with
  | none => simp [resolveCombatStep, hc]
  | some c => simp [resolveCombatStep, hc]

theorem advanceTurn_phase (s : GameState) : (advanceTurn s).phase = Phase.main_precombat := rfl

theorem advanceTurn_activePlayer (s : GameState) :
    (advanceTurn s).activePlayer = opponent s.activePlayer := rfl

/-- Claim C6 counterexample: from phase `combat_damage`, Pass switches the
active player at once and lands in `main_precombat`; the game never passes
through `main_postcombat` (or `cleanup`) before the player switch, contrary
to the claimed per-turn phase sequence. -/
theorem c6_counterexample :
    (applyAction (testState Phase.combat_damage none) Action.pass).activePlayer = 1
    ∧ (applyAction (testState Phase.combat_damage none) Action.pass).phase
        = Phase.main_precombat
    ∧ (applyAction (testState Phase.combat_damage none) Action.pass).phase
        ≠ Phase.main_postcombat := by
  decide

/-- Claim C6 (amended): applying Pass in `combat_damage` resolves the damage
step and advances the turn directly: the active player switches immediately
and the phase becomes the opponent's `main_precombat`. `main_postcombat` and
`cleanup` are not interposed — passing in either of those phases likewise
advances the turn directly. -/
theorem c6_pass_advances_turn (s : GameState)
    (h : s.phase = Phase.combat_damage ∨ s.phase = Phase.main_postcombat ∨
      s.phase = Phase.cleanup) :
    (applyPass s).phase = Phase.main_precombat
    ∧ (applyPass s).activePlayer = opponent s.activePlayer := by
  rcases h with h | h | h
  · constructor
    · simp [applyPass, h, advanceTurn_phase]
    · simp [applyPass, h, advanceTurn_activePlayer, resolveCombatStep_activePlayer]
  · constructor
    · simp [applyPass, h, advanceTurn_phase]
    · simp [applyPass, h, advanceTurn_activePlayer]
  · constructor
    · simp [applyPass, h, advanceTurn_phase]
    · simp [applyPass, h, advanceTurn_activePlayer]

/-- Witness for claim C6: the concrete `combat_damage` state of the
counterexample, run through the amended theorem. -/
theorem c6_witness :
    (testState Phase.combat_damage none).phase = Phase.combat_damage
    ∧ (applyPass (testState Phase.combat_damage none)).phase = Phase.main_precombat
    ∧ (applyPass (testState Phase.combat_damage none)).activePlayer
        = opponent (testState Phase.combat_damage none).activePlayer :=
  ⟨rfl, (c6_pass_advances_turn (testState Phase.combat_damage none) (Or.inl rfl)).1,
    (c6_pass_advances_turn (testState Phase.combat_damage none) (Or.inl rfl)).2⟩

/-- Claim C9 counterexample: declaring a summoning-sick haste creature as an
attacker taps it but leaves `summoningSick = true`: `applyDeclareAttackers`
contains no `summoningSick := false` write. -/
theorem c9_counterexample :
    (getActivePlayerState (applyAction declareState (Action.declareAttackers [5]))).battlefield
      = [{ hastySickCreature with tapped := true }]
    ∧ hastySickCreature.summoningSick = true
    ∧ ({ hastySickCreature with tapped := true }).summoningSick = true := by
  decide

/-- Claim C9 (amended): applying DeclareAttackers(ids) with ids nonempty
rewrites the active player's battlefield pointwise: a declared attacker
without vigilance is tapped, a vigilant declared attacker is unchanged (it
stays untapped), a non-attacker is unchanged — and `summoningSick` is left
unchanged on every permanent. -/
theorem c9_declare_attackers_taps (s : GameState) (ids : List Nat) (h : ids ≠ []) :
    (getActivePlayerState (applyDeclareAttackers s ids)).battlefield
      = (getActivePlayerState s).battlefield.map (fun perm =>
          if ids.contains perm.id then
            (if hasKeyword perm .vigilance then perm else { perm with tapped := true })
          else perm)
    ∧ ∀ perm ∈ (getActivePlayerState s).battlefield,
        ((if ids.contains perm.id then
            (if hasKeyword perm .vigilance then perm else { perm with tapped := true })
          else perm) : Permanent).summoningSick = perm.summoningSick := by
  constructor
  · have hne : ids.isEmpty = false := by
      cases ids with
      | nil => exact absurd rfl h
      | cons a l => rfl
    simp [applyDeclareAttackers, hne, getActivePlayerState, updatePlayer,
      playersGet_playersSet_same]
  · intro perm _
    split
    · split <;> rfl
    · rfl

/-- Witness for claim C9: the concrete declare-attackers state of the
counterexample fed through the amended theorem. -/
theorem c9_witness :
    [5] ≠ ([] : List Nat)
    ∧ (getActivePlayerState (applyDeclareAttackers declareState [5])).battlefield
      = (getActivePlayerState declareState).battlefield.map (fun perm =>
          if [5].contains perm.id then
            (if hasKeyword perm .vigilance then perm else { perm with tapped := true })
          else perm) :=
  ⟨by decide, (c9_declare_attackers_taps declareState [5] (by decide)).1⟩

theorem nil_mem_generateSubsets (ids : List Nat) : [] ∈ generateSubsets ids := by
  unfold generateSubsets
  refine List.mem_map.mpr ⟨0, List.mem_range.mpr (Nat.two_pow_pos ids.length), ?_⟩
  exact List.filterMap_eq_nil_iff.mpr fun i _ => by simp [Nat.zero_testBit]

theorem self_mem_generateAssignments (opts : List (Permanent × List Nat)) :
    ∀ current : IdMap (List Nat), current ∈ generateAssignments opts current := by
  induction opts with
  | nil => intro current; simp [generateAssignments]
  | cons o rest ih =>
      intro current
      obtain ⟨blocker, ids⟩ := o
      simp only [generateAssignments]
      exact List.mem_append_left _ (ih current)

theorem nil_mem_enumerateBlockAssignments (attackers potentialBlockers : List Permanent) :
    ([] : IdMap (List Nat)) ∈ enumerateBlockAssignments attackers potentialBlockers := by
  by_cases he : attackers.isEmpty
  · simp [enumerateBlockAssignments, he]
  · simp only [enumerateBlockAssignments, he, Bool.false_eq_true, if_false]
    refine List.mem_filter.mpr ⟨self_mem_generateAssignments _ _, ?_⟩
    refine List.all_eq_true.mpr fun a _ => ?_
    by_cases hm : hasKeyword a .menace <;> simp [hm, mapGet]

/-- Claim C10 counterexample: in a `declare_blockers` state whose combat
field is `none`, `enumerateLegalActions` returns the single Pass action and
offers no blocking assignment at all — falsifying "declare_blockers always
includes the assignment in which no creature blocks". -/
theorem c10_counterexample :
    (testState Phase.declare_blockers none).phase = Phase.declare_blockers
    ∧ enumerateLegalActions (testState Phase.declare_blockers none) = [Action.pass]
    ∧ Action.declareBlockers []
        ∉ enumerateLegalActions (testState Phase.declare_blockers none) := by
  decide

/-- Claim C10 (amended): for every GameState, `enumerateLegalActions` is
non-empty: the main phases always offer the empty cast, `declare_attackers`
always offers the empty attack, `declare_blockers` offers the no-block
assignment whenever a combat state is present (and the single Pass action
when the combat field is `none`), and the remaining phases yield exactly one
Pass action — so the search's zero-children branch is never exercised. -/
theorem c10_actions_nonempty (s : GameState) :
    enumerateLegalActions s ≠ []
    ∧ ((s.phase = Phase.main_precombat ∨ s.phase = Phase.main_postcombat) →
        Action.cast [] ∈ enumerateLegalActions s)
    ∧ (s.phase = Phase.declare_attackers →
        Action.declareAttackers [] ∈ enumerateLegalActions s)
    ∧ (s.phase = Phase.declare_blockers →
        (s.combat = none → enumerateLegalActions s = [Action.pass])
        ∧ (∀ c, s.combat = some c → Action.declareBlockers [] ∈ enumerateLegalActions s))
    ∧ ((s.phase = Phase.first_strike_damage ∨ s.phase = Phase.combat_damage ∨
        s.phase = Phase.cleanup) → enumerateLegalActions s = [Action.pass]) := by
  have hcast : Action.cast [] ∈ enumerateMainPhaseActions s :=
    List.mem_map.mpr ⟨[], nil_mem_generateSubsets _, rfl⟩
  have hatt : Action.declareAttackers [] ∈ enumerateAttackerActions s :=
    List.mem_map.mpr ⟨[], nil_mem_generateSubsets _, rfl⟩
  have hblock : ∀ c, s.combat = some c →
      Action.declareBlockers [] ∈ enumerateBlockerActions s := by
    intro c hc
    simp only [enumerateBlockerActions, hc]
    exact List.mem_map.mpr ⟨[], nil_mem_enumerateBlockAssignments _ _, rfl⟩
  have hbnone : s.combat = none → enumerateBlockerActions s = [Action.pass] := by
    intro hc
    simp [enumerateBlockerActions, hc]
  refine ⟨?_, ?_, ?_, ?_, ?_⟩
  · cases hph : s.phase <;> simp only [enumerateLegalActions, hph]
    · exact List.ne_nil_of_mem hcast
    · exact List.ne_nil_of_mem hatt
    · cases hc : s.combat with
      | none => rw [hbnone hc]; simp
      | some c => exact List.ne_nil_of_mem (hblock c hc)
    · simp
    · simp
    · exact List.ne_nil_of_mem hcast
    · simp
  · intro hph
    rcases hph with hph | hph <;> simp only [enumerateLegalActions, hph] <;> exact hcast
  · intro hph
    simp only [enumerateLegalActions, hph]
    exact hatt
  · intro hph
    refine ⟨fun hc => ?_, fun c hc => ?_⟩
    · simp only [enumerateLegalActions, hph]
      exact hbnone hc
    · simp only [enumerateLegalActions, hph]
      exact hblock c hc
  · intro hph
    rcases hph with hph | hph | hph <;> simp only [enumerateLegalActions, hph]

/-- Witness for claim C10: the initial state of a one-bear deck offers a
non-empty action list containing the empty cast. -/
theorem c10_witness :
    enumerateLegalActions (createInitialState [bearCard] []) ≠ []
    ∧ Action.cast [] ∈ enumerateLegalActions (createInitialState [bearCard] []) :=
  ⟨(c10_actions_nonempty (createInitialState [bearCard] [])).1,
    (c10_actions_nonempty (createInitialState [bearCard] [])).2.1 (Or.inl rfl)⟩

/-- Claim C7: if any card in either input deck has any Unresolved ability,
`simulateMatchup` returns the unresolved outcome whose reason is exactly
`"cards with unresolved abilities: "` followed by the offending card names
joined by `", "`, with all statistics zeroed — the result is a constant of
the decks alone, so no game-tree search is performed. -/
theorem c7_unresolved_preflight (deck0 deck1 : List Card) (maxDepth : Nat)
    (h : ∃ c ∈ deck0 ++ deck1, hasUnresolvedAbilities c = true) :
    simulateMatchup deck0 deck1 maxDepth =
      (MatchupResult.unresolved
        ("cards with unresolved abilities: "
          ++ String.intercalate ", "
            (((deck0 ++ deck1).filter hasUnresolvedAbilities).map fun c => c.name))
        (createInitialState deck0 deck1),
      { nodesExplored := 0, maxDepthReached := 0, terminatedByDepthLimit := false }) := by
  obtain ⟨c, hc, hu⟩ := h
  have hne : (deck0 ++ deck1).filter hasUnresolvedAbilities ≠ [] := by
    intro hnil
    have hmem := List.mem_filter.mpr ⟨hc, hu⟩
    rw [hnil] at hmem
    exact absurd hmem (List.not_mem_nil _)
  have hlen : 0 < ((deck0 ++ deck1).filter hasUnresolvedAbilities).length :=
    List.length_pos.mpr hne
  simp only [simulateMatchup, if_pos hlen]

/-- Witness for claim C7: a deck carrying a card with an unresolved ability
short-circuits into the exact unresolved outcome with zeroed statistics. -/
theorem c7_witness :
    (∃ c ∈ [unresolvedCard] ++ [bearCard], hasUnresolvedAbilities c = true)
    ∧ simulateMatchup [unresolvedCard] [bearCard] 10 =
      (MatchupResult.unresolved
        ("cards with unresolved abilities: "
          ++ String.intercalate ", "
            ((([unresolvedCard] ++ [bearCard]).filter hasUnresolvedAbilities).map fun c => c.name))
        (createInitialState [unresolvedCard] [bearCard]),
      { nodesExplored := 0, maxDepthReached := 0, terminatedByDepthLimit := false }) :=
  ⟨⟨unresolvedCard, by decide, by decide⟩,
    c7_unresolved_preflight [unresolvedCard] [bearCard] 10
      ⟨unresolvedCard, by decide, by decide⟩⟩

theorem hashState_setHistory (s : GameState) (h : List String) :
    hashState { s with stateHistory := h } = hashState s := rfl

/-- Claim C5: at a non-terminal node below the depth limit, the minimax
search performs the repetition check exactly at `main_precombat` nodes: if
the state's hash is already in `stateHistory` it returns value 0 (draw by
repetition); otherwise (and when the transposition table misses) it
continues the search on the state with the hash folded into a cloned
history; at every other phase it continues directly on the unchanged state,
consulting neither the history nor the stalemate check. -/
theorem c5_stalemate_checkpoint (state : GameState) (depth maxDepth : Nat)
    (stats : SearchStats) (tt : TT) (alpha beta : Int)
    (hgo : checkGameOver state = none) (hd : depth < maxDepth) :
    (state.phase = Phase.main_precombat →
      (setHas state.stateHistory (hashState state) = true →
        minimax state depth maxDepth stats tt alpha beta = (0, bumpStats stats depth, tt))
      ∧ (setHas state.stateHistory (hashState state) = false →
          ttGet tt (hashState state) = none →
          minimax state depth maxDepth stats tt alpha beta =
            minimaxBranch
              (fun s a b st t =>
                minimaxGo (maxDepth - (depth + 1)) s (depth + 1) maxDepth st t a b)
              state.phase
              { state with stateHistory := setAdd state.stateHistory (hashState state) }
              (bumpStats stats depth) tt alpha beta))
    ∧ (state.phase ≠ Phase.main_precombat →
        minimax state depth maxDepth stats tt alpha beta =
          minimaxBranch
            (fun s a b st t =>
              minimaxGo (maxDepth - (depth + 1)) s (depth + 1) maxDepth st t a b)
            state.phase state (bumpStats stats depth) tt alpha beta) := by
  obtain ⟨k, hk⟩ : ∃ k, maxDepth - depth = k + 1 := ⟨maxDepth - depth - 1, by omega⟩
  have hk' : maxDepth - (depth + 1) = k := by omega
  have hnd : ¬(depth ≥ maxDepth) := by omega
  constructor
  · intro hph
    constructor
    · intro hhas
      show minimaxGo (maxDepth - depth) state depth maxDepth stats tt alpha beta = _
      rw [hk]
      simp only [minimaxGo, hgo, if_neg hnd]
      rw [if_pos hph]
      simp [checkAndRecordStalemate, hhas]
    · intro hhas htm
      show minimaxGo (maxDepth - depth) state depth maxDepth stats tt alpha beta = _
      rw [hk]
      simp only [minimaxGo, hgo, if_neg hnd]
      rw [if_pos hph]
      simp only [checkAndRecordStalemate, hhas, Bool.false_eq_true, if_false,
        hashState_setHistory, htm, hk']
  · intro hph
    show minimaxGo (maxDepth - depth) state depth maxDepth stats tt alpha beta = _
    rw [hk]
    simp only [minimaxGo, hgo, if_neg hnd]
    rw [if_neg hph, hk']

/-- Witness for claim C5: the concrete repeated position returns value 0
with bumped statistics and an untouched transposition table. -/
theorem c5_witness :
    checkGameOver stalemateState = none
    ∧ 0 < 5
    ∧ stalemateState.phase = Phase.main_precombat
    ∧ setHas stalemateState.stateHistory (hashState stalemateState) = true
    ∧ minimax stalemateState 0 5 ⟨0, 0, false⟩ [] NEG_INF POS_INF
        = (0, bumpStats ⟨0, 0, false⟩ 0, []) :=
  ⟨by decide, by decide, rfl, by decide,
    ((c5_stalemate_checkpoint stalemateState 0 5 ⟨0, 0, false⟩ [] NEG_INF POS_INF
        (by decide) (by decide)).1 rfl).1 (by decide)⟩

theorem mapGet_mem {β : Type} (m : IdMap β) (k : Nat) (v : β) (h : mapGet m k = some v) :
    (k, v) ∈ m := by
  induction m with
  | nil => simp [mapGet] at h
  | cons kv rest ih =>
      by_cases hk : kv.1 = k
      · simp only [mapGet, if_pos hk, Option.some.injEq] at h
        exact List.mem_cons.mpr (Or.inl (by rw [← hk, ← h]))
      · simp only [mapGet, if_neg hk] at h
        exact List.mem_cons_of_mem _ (ih h)

theorem mem_mapSet {β : Type} (m : IdMap β) (k : Nat) (v : β) (entry : Nat × β)
    (h : entry ∈ mapSet m k v) : entry ∈ m ∨ entry = (k, v) := by
  induction m with
  | nil => simp [mapSet] at h; right; exact h
  | cons kv rest ih =>
      by_cases hk : kv.1 = k
      · simp only [mapSet, if_pos hk, List.mem_cons] at h
        rcases h with h | h
        · exact Or.inr h
        · exact Or.inl (List.mem_cons_of_mem _ h)
      · simp only [mapSet, if_neg hk, List.mem_cons] at h
        rcases h with h | h
        · exact Or.inl (List.mem_cons.mpr (Or.inl h))
        · rcases ih h with h2 | h2
          · exact Or.inl (List.mem_cons_of_mem _ h2)
          · exact Or.inr h2

theorem generateAssignments_sound (P : Nat → Nat → Prop) :
    ∀ (opts : List (Permanent × List Nat)) (current : IdMap (List Nat)),
      (∀ o ∈ opts, ∀ aid ∈ o.2, P aid o.1.id) →
      (∀ entry ∈ current, ∀ bid ∈ entry.2, P entry.1 bid) →
      ∀ r ∈ generateAssignments opts current, ∀ entry ∈ r, ∀ bid ∈ entry.2, P entry.1 bid := by
  intro opts
  induction opts with
  | nil =>
      intro current _ hcur r hr
      simp only [generateAssignments, List.mem_singleton] at hr
      subst hr
      exact hcur
  | cons o rest ih =>
      obtain ⟨blocker, canIds⟩ := o
      intro current hopts hcur r hr
      simp only [generateAssignments, List.mem_append] at hr
      rcases hr with hr | hr
      · exact ih current (fun o ho aid ha => hopts o (List.mem_cons_of_mem _ ho) aid ha) hcur r hr
      · rw [List.mem_flatMap] at hr
        obtain ⟨aid, haid, hr⟩ := hr
        refine ih _ (fun o ho a ha => hopts o (List.mem_cons_of_mem _ ho) a ha) ?_ r hr
        intro entry hentry bid hbid
        rcases mem_mapSet _ _ _ _ hentry with hmem | hentryEq
        · exact hcur entry hmem bid hbid
        · subst hentryEq
          simp only at hbid
          rcases List.mem_append.mp hbid with hold | hnew
          · cases hget : mapGet current aid with
            | none => rw [hget] at hold; simp at hold
            | some l =>
                rw [hget] at hold
                exact hcur (aid, l) (mapGet_mem _ _ _ hget) bid (by simpa using hold)
          · have hb : bid = blocker.id := by simpa using hnew
            subst hb
            exact hopts (blocker, canIds) (List.mem_cons_self _ _) aid haid

theorem flat_count_mapSet (aid y x : Nat) :
    ∀ current : IdMap (List Nat),
      (((mapSet current aid ((mapGet current aid).getD [] ++ [y])).map
          (fun e => e.2)).flatten).count x
        = ((current.map (fun e => e.2)).flatten).count x + (if y = x then 1 else 0) := by
  intro current
  induction current with
  | nil => simp [mapSet, mapGet, List.count_cons]
  | cons kv rest ih =>
      by_cases hk : kv.1 = aid
      · simp [mapSet, mapGet, hk, List.count_append, List.count_cons]
        omega
      · simp only [mapGet, if_neg hk, mapSet, List.map_cons, List.flatten_cons,
          List.count_append] at ih ⊢
        omega

theorem generateAssignments_count (x : Nat) :
    ∀ (opts : List (Permanent × List Nat)) (current : IdMap (List Nat)),
      ∀ r ∈ generateAssignments opts current,
        ((r.map (fun e => e.2)).flatten).count x
          ≤ ((current.map (fun e => e.2)).flatten).count x
            + (opts.map (fun o => o.1.id)).count x := by
  intro opts
  induction opts with
  | nil =>
      intro current r hr
      simp only [generateAssignments, List.mem_singleton] at hr
      subst hr
      simp
  | cons o rest ih =>
      obtain ⟨blocker, canIds⟩ := o
      intro current r hr
      simp only [generateAssignments, List.mem_append] at hr
      rcases hr with hr | hr
      · have h1 := ih current r hr
        simp only [List.map_cons, List.count_cons] at *
        omega
      · rw [List.mem_flatMap] at hr
        obtain ⟨aid, haid, hr⟩ := hr
        have h1 := ih _ r hr
        have h2 := flat_count_mapSet aid blocker.id x current
        simp only [List.map_cons, List.count_cons, beq_iff_eq] at *
        omega

theorem canBlockAttacker_flying (b a : Permanent) (h : canBlockAttacker b a = true)
    (hf : hasKeyword a .flying = true) :
    hasKeyword b .flying = true ∨ hasKeyword b .reach = true := by
  by_cases hbf : hasKeyword b .flying
  · exact Or.inl hbf
  · by_cases hbr : hasKeyword b .reach
    · exact Or.inr hbr
    · exfalso
      simp [canBlockAttacker, hf, hbf, hbr] at h

/-- Claim C8: in every assignment emitted by `enumerateBlockAssignments`
(over a blocker pool with distinct ids), every assigned blocker id belongs
to a potential blocker that may legally block that attacker — in particular
a blocker assigned to a flying attacker has flying or reach; each blocker id
occurs at most once across the whole assignment (each blocker blocks at most
one attacker); and every attacker with menace is either unblocked or
assigned at least two blockers. -/
theorem c8_block_assignment_invariants
    (attackers potentialBlockers : List Permanent)
    (hnd : (potentialBlockers.map fun p => p.id).Nodup)
    (assignment : IdMap (List Nat))
    (hmem : assignment ∈ enumerateBlockAssignments attackers potentialBlockers) :
    (∀ entry ∈ assignment, ∀ bid ∈ entry.2,
      ∃ b ∈ potentialBlockers, b.id = bid ∧
        ∃ a ∈ attackers, a.id = entry.1 ∧ canBlockAttacker b a = true ∧
          (hasKeyword a .flying = true →
            hasKeyword b .flying = true ∨ hasKeyword b .reach = true))
    ∧ ((assignment.map fun e => e.2).flatten).Nodup
    ∧ (∀ a ∈ attackers, hasKeyword a .menace = true →
        ((mapGet assignment a.id).getD []).length = 0
        ∨ 2 ≤ ((mapGet assignment a.id).getD []).length) := by
  by_cases he : attackers.isEmpty
  · have hempty : attackers = [] := List.isEmpty_iff.mp he
    subst hempty
    simp only [enumerateBlockAssignments, List.isEmpty_nil, if_true,
      List.mem_singleton] at hmem
    subst hmem
    exact ⟨by simp, by simp, by simp⟩
  · simp only [enumerateBlockAssignments, he, Bool.false_eq_true, if_false] at hmem
    rw [List.mem_filter] at hmem
    obtain ⟨hgen, hmen⟩ := hmem
    refine ⟨?_, ?_, ?_⟩
    · refine generateAssignments_sound
        (fun aid bid => ∃ b ∈ potentialBlockers, b.id = bid ∧
          ∃ a ∈ attackers, a.id = aid ∧ canBlockAttacker b a = true ∧
            (hasKeyword a .flying = true →
              hasKeyword b .flying = true ∨ hasKeyword b .reach = true))
        _ [] ?_ (by simp) assignment hgen
      intro o ho aid haid
      rw [List.mem_map] at ho
      obtain ⟨blocker, hbmem, hoeq⟩ := ho
      subst hoeq
      simp only [List.mem_map] at haid
      obtain ⟨a, hafil, haeq⟩ := haid
      rw [List.mem_filter] at hafil
      exact ⟨blocker, hbmem, rfl, a, hafil.1, haeq, hafil.2,
        canBlockAttacker_flying blocker a hafil.2⟩
    · rw [List.nodup_iff_count_le_one]
      intro x
      have h1 := generateAssignments_count x
        (potentialBlockers.map fun blocker =>
          (blocker, (attackers.filter fun a => canBlockAttacker blocker a).map fun a => a.id))
        [] assignment hgen
      have hids : ((potentialBlockers.map fun blocker =>
            (blocker, (attackers.filter fun a => canBlockAttacker blocker a).map
              fun a => a.id)).map (fun o => o.1.id))
          = potentialBlockers.map fun p => p.id := by
        rw [List.map_map]
        rfl
      rw [hids] at h1
      have h2 := List.nodup_iff_count_le_one.mp hnd x
      have h0 : ((([] : IdMap (List Nat)).map (fun e => e.2)).flatten).count x = 0 := rfl
      omega
    · intro a ha hm
      have hall := List.all_eq_true.mp hmen a ha
      simp only [hm, if_true, decide_eq_true_eq] at hall
      omega

/-- Witness for claim C8: the single-attacker, single-blocker board; the
assignment in which the 2/2 blocks the 3/3 satisfies the menace clause. -/
theorem c8_witness :
    ([c1Blocker].map (fun p => p.id)).Nodup
    ∧ [(10, [11])] ∈ enumerateBlockAssignments [c1Attacker] [c1Blocker]
    ∧ (∀ a ∈ [c1Attacker], hasKeyword a .menace = true →
        ((mapGet [(10, [11])] a.id).getD []).length = 0
        ∨ 2 ≤ ((mapGet [(10, [11])] a.id).getD []).length) :=
  ⟨by decide, by decide,
    (c8_block_assignment_invariants [c1Attacker] [c1Blocker] (by decide) [(10, [11])]
      (by decide)).2.2⟩

end ThreeCB
